import Mathlib

/-!
# collect-sol: a verification development

Shallow embedding of `collect-sol.js`, a command-line script that reads a list of
Base58 secret keys from a text file and either reports the balance of every
account (`checkBalances`) or sweeps every account to a fixed target address
(`collectAll`).

The script talks to three outside parties: the file system, the `bs58` and
`@solana/web3.js` libraries, and the RPC node.  They are gathered in the record
`Env`; every function of the script is a Lean function of that record.  Console
output, RPC calls and file accesses are collected, in program order, in a trace
of `Event`s.
-/

set_option autoImplicit false

deriving instance DecidableEq for Except

namespace CollectSol

/-! ## JavaScript strings -/

/-- Code points that `String.prototype.trim` strips: the ECMAScript `WhiteSpace`
and `LineTerminator` productions. -/
def isJsWhiteSpace (c : Char) : Bool :=
  let n := c.toNat
  n == 0x09 || n == 0x0A || n == 0x0B || n == 0x0C || n == 0x0D || n == 0x20 ||
  n == 0xA0 || n == 0x1680 || (0x2000 ≤ n && n ≤ 0x200A) || n == 0x2028 ||
  n == 0x2029 || n == 0x202F || n == 0x205F || n == 0x3000 || n == 0xFEFF

/-- Drop the white space at the end of a list of characters. -/
def dropTrailingWhiteSpace : List Char → List Char
  | [] => []
  | c :: cs =>
    match dropTrailingWhiteSpace cs with
    | [] => if isJsWhiteSpace c then [] else [c]
    | d :: ds => c :: d :: ds

/-- The method `String.prototype.trim`, on lists of characters. -/
def trimChars (cs : List Char) : List Char :=
  dropTrailingWhiteSpace (cs.dropWhile isJsWhiteSpace)

/-- The method `String.prototype.trim`. -/
def jsTrim (s : String) : String :=
  String.mk (trimChars s.data)

/-- The call `s.split(sep)` for a one-character separator, on lists of characters:
the pieces between consecutive separators, empty pieces included. -/
def splitChars (sep : Char) : List Char → List (List Char)
  | [] => [[]]
  | c :: cs =>
    if c = sep then [] :: splitChars sep cs
    else
      match splitChars sep cs with
      | [] => [[c]]
      | piece :: pieces => (c :: piece) :: pieces

/-- The call `s.split(sep)` for a one-character separator. -/
def jsSplit (s : String) (sep : Char) : List String :=
  (splitChars sep s.data).map String.mk

/-- The coercion `Boolean(s)` of a string: only the empty string is falsy. -/
def jsBoolean (s : String) : Bool :=
  !(s == "")

/-- The method `Array.prototype.map` with a callback that may throw: the callback
is applied from left to right and the first exception aborts the whole call. -/
def mapThrowing {α β : Type} (f : α → Except String β) : List α → Except String (List β)
  | [] => Except.ok []
  | a :: as =>
    match f a with
    | Except.error e => Except.error e
    | Except.ok b =>
      match mapThrowing f as with
      | Except.error e => Except.error e
      | Except.ok bs => Except.ok (b :: bs)

/-! ## Data model -/

/-- A `PublicKey` of `@solana/web3.js`, identified with its Base58 rendering. -/
structure PublicKey where
  toBase58 : String
deriving DecidableEq, Repr

/-- A `Keypair` of `@solana/web3.js`. -/
structure Keypair where
  publicKey : PublicKey
  secretKey : List Nat
deriving DecidableEq, Repr

/-- The record pushed on `balancesInfo` for one account. -/
structure BalanceInfo where
  wallet : String
  balanceLamports : Nat
  balanceSol : Rat
deriving DecidableEq, Repr

/-- The instruction returned by `SystemProgram.transfer`. -/
structure TransferInstruction where
  fromPubkey : PublicKey
  toPubkey : PublicKey
  lamports : Int
deriving DecidableEq, Repr

/-- A `Transaction`: the instructions added to it so far. -/
structure Transaction where
  instructions : List TransferInstruction
deriving DecidableEq, Repr

/-- The method `Transaction.prototype.add`. -/
def Transaction.add (tx : Transaction) (ix : TransferInstruction) : Transaction :=
  { instructions := tx.instructions ++ [ix] }

/-- The options object handed to `sendAndConfirmTransaction`. -/
structure ConfirmOptions where
  skipPreflight : Bool
  commitment : String
  maxRetries : Nat
  timeout : Nat
deriving DecidableEq, Repr

/-! ## JavaScript numbers

A JavaScript `Number` is an IEEE-754 binary64 value.  Lamport balances are
natural numbers held in such values; the script subtracts the fee reserve from
them and divides them by `LAMPORTS_PER_SOL`.  Both operations return the exact
result rounded to the nearest binary64 value, ties to even.  Every value met
here is far inside the normal range of binary64, so the exponent is unbounded in
this model. -/

/-- Worker of `bitLength`, recursive on a fuel argument. -/
def bitLengthAux : Nat → Nat → Nat
  | 0, _ => 0
  | fuel + 1, n => if n = 0 then 0 else bitLengthAux fuel (n / 2) + 1

/-- Number of binary digits of a natural number (`0` for `0`). -/
def bitLength (n : Nat) : Nat :=
  bitLengthAux n n

/-- Rounding of a natural number to the nearest binary64 value, ties to even:
numbers below `2 ^ 53` are representable, larger ones keep 53 significant bits. -/
def roundNat (n : Nat) : Nat :=
  if n < 2 ^ 53 then n
  else
    let e := bitLength n - 53
    let q := n / 2 ^ e
    let r := n % 2 ^ e
    if 2 * r > 2 ^ e ∨ (2 * r = 2 ^ e ∧ q % 2 = 1) then (q + 1) * 2 ^ e else q * 2 ^ e

/-- The expression `a - b` on two integer-valued numbers: the exact difference,
rounded to binary64. -/
def jsSub (a b : Int) : Int :=
  if 0 ≤ a - b then (roundNat (a - b).toNat : Int) else -(roundNat (b - a).toNat : Int)

/-- The quotient `n / (d * 2 ^ e)` rounded to the nearest integer, ties to even. -/
def roundAt (n d : Nat) (e : Int) : Nat :=
  let num := n * 2 ^ (-e).toNat
  let den := d * 2 ^ e.toNat
  let q := num / den
  let r := num % den
  if 2 * r > den ∨ (2 * r = den ∧ q % 2 = 1) then q + 1 else q

/-- The binary exponent of the binary64 value nearest to `n / d`, for positive
`n` and `d`: the integer `e` for which `n / (d * 2 ^ e)` lies in `[2 ^ 52, 2 ^ 53)`. -/
def quotExponent (n d : Nat) : Int :=
  let e0 : Int := (bitLength n : Int) - (bitLength d : Int) - 53
  if n * 2 ^ (-e0).toNat / (d * 2 ^ e0.toNat) < 2 ^ 53 then e0 else e0 + 1

/-- Significand and exponent of the binary64 value nearest to `n / d`, for
positive `n` and `d`: the pair `(m, e)` stands for `m * 2 ^ e`. -/
def roundQuot (n d : Nat) : Nat × Int :=
  (roundAt n d (quotExponent n d), quotExponent n d)

/-- The expression `n / d` on two natural-valued numbers with `d` positive (the
script only divides by `LAMPORTS_PER_SOL`): the exact quotient rounded to binary64,
as a rational number. -/
def jsDiv (n d : Nat) : Rat :=
  if n = 0 then 0 else ((roundQuot n d).1 : Rat) * (2 : Rat) ^ (roundQuot n d).2

/-! ## The outside world -/

/-- Everything the script obtains from outside: the file system, the `bs58` and
`@solana/web3.js` libraries, the RPC node and the configured constants.  A call
that throws, or a promise that rejects, is an `Except.error` carrying the
message.  The two RPC calls take the position of the current account in the key
list as their first argument, so that the node may answer every call of a run
differently; a balance is the natural number held by the `Number` that
`getBalance` resolves to.  `TARGET_ADDRESS` and `RPC_URL` are the constants the
operator configures at the top of the script (the script ships with a placeholder
for the target address). -/
structure Env where
  readFileSync : String → Except String String
  bs58decode : String → Except String (List Nat)
  fromSecretKey : List Nat → Except String Keypair
  getBalance : Nat → PublicKey → Except String Nat
  sendAndConfirmTransaction :
    Nat → Transaction → List Keypair → ConfirmOptions → Except String String
  RPC_URL : String
  TARGET_ADDRESS : PublicKey

/-- The constant `LAMPORTS_PER_SOL` of `@solana/web3.js`. -/
def LAMPORTS_PER_SOL : Nat := 1000000000

/-- The constant `WALLET_KEYS_FILE`. -/
def WALLET_KEYS_FILE : String := "./wallets.txt"

/-- The constant `OUTPUT_JSON_FILE`. -/
def OUTPUT_JSON_FILE : String := "./balances.json"

/-- The lines written with `console.log` and `console.error`, with the values
they interpolate; amounts in SOL are kept as numbers, before `toFixed(6)` renders
them. -/
inductive LogLine where
  | menu
  | modeCheck
  | modeCollect
  | walletsFound (count : Nat)
  | usingRpc (url : String)
  | targetAddress (address : String)
  | walletBalance (wallet : String) (balanceSol : Rat)
  | balanceError (wallet : String) (err : String)
  | zeroBalance
  | insufficientForFee
  | sent (amountSol : Rat) (signature : String)
  | txError (err : String)
  | saved (path : String)
  | collectDone
  | unknownChoice
deriving DecidableEq, Repr

/-- What the script does to the outside world, in program order. -/
inductive Event where
  | console (line : LogLine)
  | readFileSync (path : String)
  | getBalance (pubKey : PublicKey)
  | transfer (instruction : TransferInstruction)
  | sendAndConfirmTransaction (tx : Transaction) (signers : List Keypair)
      (options : ConfirmOptions)
  | writeFileSync (path : String) (data : List BalanceInfo)
  | close
deriving DecidableEq, Repr

/-- A run of an `async` function, or of a part of one: the events it produced and
whether it ended normally (the promise was fulfilled) or by an exception (the
promise was rejected). -/
structure Run where
  trace : List Event
  outcome : Except String Unit

/-! ## The script -/

/-- The callback of `lines.map` in `loadKeypairsFromTxt`: Base58 decoding followed
by `Keypair.fromSecretKey`; either step may throw. -/
def decodeKey (env : Env) (base58Str : String) : Except String Keypair :=
  match env.bs58decode base58Str with
  | Except.error e => Except.error e
  | Except.ok secretKeyBytes => env.fromSecretKey secretKeyBytes

/-- The array `lines` of `loadKeypairsFromTxt`: the file content split at line
feeds, every piece trimmed, empty pieces dropped. -/
def keyLines (fileContent : String) : List String :=
  ((jsSplit fileContent (Char.ofNat 10)).map jsTrim).filter jsBoolean

/-- The function `loadKeypairsFromTxt`. -/
def loadKeypairsFromTxt (env : Env) (filePath : String) : Except String (List Keypair) :=
  match env.readFileSync filePath with
  | Except.error e => Except.error e
  | Except.ok fileContent => mapThrowing (decodeKey env) (keyLines fileContent)

/-- One turn of the loop of `checkBalances`, for the account at position `i`:
the events of the turn and the record pushed on `balancesInfo`. -/
def checkOne (env : Env) (i : Nat) (kp : Keypair) : List Event × BalanceInfo :=
  let pubKey := kp.publicKey
  match env.getBalance i pubKey with
  | Except.error err =>
    let balanceLamports : Nat := 0
    let balanceSol := jsDiv balanceLamports LAMPORTS_PER_SOL
    ([Event.getBalance pubKey,
      Event.console (LogLine.balanceError pubKey.toBase58 err),
      Event.console (LogLine.walletBalance pubKey.toBase58 balanceSol)],
     { wallet := pubKey.toBase58, balanceLamports := balanceLamports,
       balanceSol := balanceSol })
  | Except.ok balanceLamports =>
    let balanceSol := jsDiv balanceLamports LAMPORTS_PER_SOL
    ([Event.getBalance pubKey,
      Event.console (LogLine.walletBalance pubKey.toBase58 balanceSol)],
     { wallet := pubKey.toBase58, balanceLamports := balanceLamports,
       balanceSol := balanceSol })

/-- The loop of `checkBalances` over the key pairs, the first of which stands at
position `i`: one entry per turn. -/
def checkSteps (env : Env) : Nat → List Keypair → List (List Event × BalanceInfo)
  | _, [] => []
  | i, kp :: rest => checkOne env i kp :: checkSteps env (i + 1) rest

/-- The function `checkBalances`. -/
def checkBalances (env : Env) : Run :=
  let opening := [Event.console LogLine.modeCheck, Event.readFileSync WALLET_KEYS_FILE]
  match loadKeypairsFromTxt env WALLET_KEYS_FILE with
  | Except.error e => { trace := opening, outcome := Except.error e }
  | Except.ok keypairs =>
    let steps := checkSteps env 0 keypairs
    let balancesInfo := steps.map Prod.snd
    { trace :=
        opening ++
        [Event.console (LogLine.walletsFound keypairs.length),
         Event.console (LogLine.usingRpc env.RPC_URL)] ++
        (steps.map Prod.fst).flatten ++
        [Event.writeFileSync OUTPUT_JSON_FILE balancesInfo,
         Event.console (LogLine.saved OUTPUT_JSON_FILE)],
      outcome := Except.ok () }

/-- The options literal of the call of `sendAndConfirmTransaction`. -/
def confirmOptions : ConfirmOptions :=
  { skipPreflight := false, commitment := "confirmed", maxRetries := 5, timeout := 60000 }

/-- The call `SystemProgram.transfer`, outside every `try` block of the script:
the instruction data hold the amount as an unsigned 64-bit integer, and the call
throws a range error for an amount that does not fit. -/
def SystemProgram.transfer (fromPubkey toPubkey : PublicKey) (lamports : Int) :
    Except String TransferInstruction :=
  if 0 ≤ lamports ∧ lamports < 2 ^ 64 then
    Except.ok { fromPubkey := fromPubkey, toPubkey := toPubkey, lamports := lamports }
  else Except.error "RangeError: the amount is out of the range of an unsigned 64-bit integer"

/-- One turn of the loop of `collectAll`, for the account at position `i`: the
events of the turn, and whether the turn ends normally (also by `continue`) or
throws out of the loop, which happens when `SystemProgram.transfer` throws. -/
def collectOne (env : Env) (i : Nat) (senderKeypair : Keypair) : Run :=
  let senderPubKey := senderKeypair.publicKey
  match env.getBalance i senderPubKey with
  | Except.error err =>
    { trace :=
        [Event.getBalance senderPubKey,
         Event.console (LogLine.balanceError senderPubKey.toBase58 err)],
      outcome := Except.ok () }
  | Except.ok balanceLamports =>
    let balanceSol := jsDiv balanceLamports LAMPORTS_PER_SOL
    let queried :=
      [Event.getBalance senderPubKey,
       Event.console (LogLine.walletBalance senderPubKey.toBase58 balanceSol)]
    if balanceLamports = 0 then
      { trace := queried ++ [Event.console LogLine.zeroBalance], outcome := Except.ok () }
    else
      let transactionAmount := jsSub balanceLamports 5000
      if transactionAmount ≤ 0 then
        { trace := queried ++ [Event.console LogLine.insufficientForFee],
          outcome := Except.ok () }
      else
        match SystemProgram.transfer senderPubKey env.TARGET_ADDRESS transactionAmount with
        | Except.error err => { trace := queried, outcome := Except.error err }
        | Except.ok instruction =>
          let tx := Transaction.add { instructions := [] } instruction
          let submitted :=
            queried ++
            [Event.transfer instruction,
             Event.sendAndConfirmTransaction tx [senderKeypair] confirmOptions]
          match env.sendAndConfirmTransaction i tx [senderKeypair] confirmOptions with
          | Except.ok signature =>
            { trace :=
                submitted ++
                [Event.console
                  (LogLine.sent (jsDiv transactionAmount.toNat LAMPORTS_PER_SOL) signature)],
              outcome := Except.ok () }
          | Except.error err =>
            { trace := submitted ++ [Event.console (LogLine.txError err)],
              outcome := Except.ok () }

/-- The loop of `collectAll` over the key pairs, the first of which stands at
position `i`: for every key pair the events of its turn, and the outcome of the
loop.  A turn that throws ends the loop: the key pairs after it get no turn, hence
no event. -/
def collectLoop (env : Env) : Nat → List Keypair → List (List Event) × Except String Unit
  | _, [] => ([], Except.ok ())
  | i, kp :: rest =>
    match (collectOne env i kp).outcome with
    | Except.error e =>
      ((collectOne env i kp).trace :: rest.map (fun _ => []), Except.error e)
    | Except.ok _ =>
      ((collectOne env i kp).trace :: (collectLoop env (i + 1) rest).1,
       (collectLoop env (i + 1) rest).2)

/-- The events of every turn of the loop of `collectAll`, one entry per key
pair. -/
def collectSteps (env : Env) (i : Nat) (kps : List Keypair) : List (List Event) :=
  (collectLoop env i kps).1

/-- The function `collectAll`. -/
def collectAll (env : Env) : Run :=
  let opening := [Event.console LogLine.modeCollect, Event.readFileSync WALLET_KEYS_FILE]
  match loadKeypairsFromTxt env WALLET_KEYS_FILE with
  | Except.error e => { trace := opening, outcome := Except.error e }
  | Except.ok keypairs =>
    let running :=
      opening ++
      [Event.console (LogLine.walletsFound keypairs.length),
       Event.console (LogLine.usingRpc env.RPC_URL),
       Event.console (LogLine.targetAddress env.TARGET_ADDRESS.toBase58)] ++
      (collectSteps env 0 keypairs).flatten
    match (collectLoop env 0 keypairs).2 with
    | Except.error e => { trace := running, outcome := Except.error e }
    | Except.ok _ =>
      { trace := running ++ [Event.console LogLine.collectDone], outcome := Except.ok () }

/-- A mode followed by `rl.close()`, which is reached only when the awaited
promise of the mode is fulfilled. -/
def thenClose (r : Run) : Run :=
  match r.outcome with
  | Except.error e => { trace := r.trace, outcome := Except.error e }
  | Except.ok _ => { trace := r.trace ++ [Event.close], outcome := Except.ok () }

/-- The callback of `rl.question`, applied to the answer of the operator. -/
def onAnswer (env : Env) (answer : String) : Run :=
  if answer = "1" then thenClose (checkBalances env)
  else if answer = "2" then thenClose (collectAll env)
  else
    { trace := [Event.console LogLine.unknownChoice, Event.close], outcome := Except.ok () }

/-- The script from the menu on: the menu is printed, the operator answers, the
callback runs. -/
def script (env : Env) (answer : String) : Run :=
  { trace := Event.console LogLine.menu :: (onAnswer env answer).trace,
    outcome := (onAnswer env answer).outcome }

/-! ## Observations on traces -/

/-- The balance queries of a trace: the addresses queried, in order. -/
def queriedAddresses : List Event → List PublicKey
  | [] => []
  | Event.getBalance pk :: es => pk :: queriedAddresses es
  | _ :: es => queriedAddresses es

/-- The transfer instructions built in a trace, in order. -/
def transfersBuilt : List Event → List TransferInstruction
  | [] => []
  | Event.transfer ix :: es => ix :: transfersBuilt es
  | _ :: es => transfersBuilt es

/-- The transactions submitted in a trace, each with its signers, in order. -/
def transactionsSubmitted : List Event → List (Transaction × List Keypair)
  | [] => []
  | Event.sendAndConfirmTransaction tx signers _ :: es =>
    (tx, signers) :: transactionsSubmitted es
  | _ :: es => transactionsSubmitted es

/-- The transfers logged as sent in a trace: the signatures, in order. -/
def transfersSent : List Event → List String
  | [] => []
  | Event.console (LogLine.sent _ signature) :: es => signature :: transfersSent es
  | _ :: es => transfersSent es

/-- The files written in a trace, in order. -/
def filesWritten : List Event → List (String × List BalanceInfo)
  | [] => []
  | Event.writeFileSync path data :: es => (path, data) :: filesWritten es
  | _ :: es => filesWritten es

/-- The files read in a trace, in order. -/
def filesRead : List Event → List String
  | [] => []
  | Event.readFileSync path :: es => path :: filesRead es
  | _ :: es => filesRead es

/-- The environment in which the node is never asked about the account at
position `n`: its answers for the positions after `n` move one position forward,
the answers for the positions before `n` stay. -/
def Env.withoutAccount (env : Env) (n : Nat) : Env :=
  { env with
    getBalance := fun i => env.getBalance (if i < n then i else i + 1)
    sendAndConfirmTransaction :=
      fun i => env.sendAndConfirmTransaction (if i < n then i else i + 1) }

/-! ## Sample environments

Concrete environments on which the statements below are instantiated. -/

/-- A stand-in for `bs58.decode`: strings of letters and digits decode to their
character codes, any other string is rejected. -/
def sampleDecode (s : String) : Except String (List Nat) :=
  if s.data.all Char.isAlphanum then Except.ok (s.data.map Char.toNat)
  else Except.error "Non-base58 character"

/-- A stand-in for `Keypair.fromSecretKey`: the address spells the secret bytes. -/
def sampleFromSecretKey (bytes : List Nat) : Except String Keypair :=
  Except.ok { publicKey := { toBase58 := String.mk (bytes.map Char.ofNat) }, secretKey := bytes }

/-- An environment whose key file has the given content and whose node answers
the balance query of the account at position `i` with `balances i` and confirms
the transaction of the account at position `i` according to `confirms i`. -/
def sampleEnv (content : String) (balances : Nat → Except String Nat)
    (confirms : Nat → Except String String) : Env :=
  { readFileSync := fun path =>
      if path = WALLET_KEYS_FILE then Except.ok content else Except.error "ENOENT"
    bs58decode := sampleDecode
    fromSecretKey := sampleFromSecretKey
    getBalance := fun i _ => balances i
    sendAndConfirmTransaction := fun i _ _ _ => confirms i
    RPC_URL := "https://api.mainnet-beta.solana.com"
    TARGET_ADDRESS := { toBase58 := "Target" } }

/-- The key pair that `sampleEnv` decodes from the line `A`. -/
def keyA : Keypair :=
  { publicKey := { toBase58 := "A" }, secretKey := [65] }

/-- The key pair that `sampleEnv` decodes from the line `B`. -/
def keyB : Keypair :=
  { publicKey := { toBase58 := "B" }, secretKey := [66] }

/-! ## Lemmas on the string primitives -/

theorem splitChars_ne_nil (sep : Char) (cs : List Char) : splitChars sep cs ≠ [] := by
  cases cs with
  | nil => simp [splitChars]
  | cons c cs =>
    unfold splitChars
    split
    · simp
    · split <;> simp

theorem splitChars_intercalate (sep : Char) (cs : List Char) :
    List.intercalate [sep] (splitChars sep cs) = cs := by
  induction cs with
  | nil => rfl
  | cons c cs ih =>
    unfold splitChars
    by_cases hc : c = sep
    · rw [if_pos hc]
      cases hrest : splitChars sep cs with
      | nil => exact absurd hrest (splitChars_ne_nil sep cs)
      | cons piece pieces =>
        rw [hrest] at ih
        rw [hc]
        simp only [List.intercalate, List.intersperse, List.flatten] at ih ⊢
        simp [ih]
    · rw [if_neg hc]
      cases hrest : splitChars sep cs with
      | nil => exact absurd hrest (splitChars_ne_nil sep cs)
      | cons piece pieces =>
        rw [hrest] at ih
        cases pieces with
        | nil =>
          simp only [List.intercalate, List.intersperse, List.flatten] at ih ⊢
          simpa using ih
        | cons p ps =>
          simp only [List.intercalate, List.intersperse, List.flatten] at ih ⊢
          simpa using ih

theorem splitChars_not_mem (sep : Char) (cs piece : List Char)
    (h : piece ∈ splitChars sep cs) : sep ∉ piece := by
  induction cs generalizing piece with
  | nil =>
    simp only [splitChars, List.mem_singleton] at h
    subst h
    simp
  | cons c cs ih =>
    unfold splitChars at h
    by_cases hc : c = sep
    · rw [if_pos hc] at h
      rcases List.mem_cons.mp h with h | h
      · subst h
        simp
      · exact ih piece h
    · rw [if_neg hc] at h
      cases hrest : splitChars sep cs with
      | nil => exact absurd hrest (splitChars_ne_nil sep cs)
      | cons p ps =>
        rw [hrest] at h ih
        rcases List.mem_cons.mp h with h | h
        · subst h
          intro hmem
          rcases List.mem_cons.mp hmem with h1 | h1
          · exact hc h1.symm
          · exact ih p (List.mem_cons_self p ps) h1
        · exact ih piece (List.mem_cons_of_mem p h)

theorem dropTrailingWhiteSpace_eq_nil_iff (cs : List Char) :
    dropTrailingWhiteSpace cs = [] ↔ ∀ c ∈ cs, isJsWhiteSpace c = true := by
  induction cs with
  | nil => simp [dropTrailingWhiteSpace]
  | cons c cs ih =>
    unfold dropTrailingWhiteSpace
    cases hrest : dropTrailingWhiteSpace cs with
    | nil =>
      rw [hrest] at ih
      have hall := ih.mp rfl
      by_cases hc : isJsWhiteSpace c = true
      · simp only [hc, if_true, true_iff]
        intro x hx
        rcases List.mem_cons.mp hx with h | h
        · rw [h]; exact hc
        · exact hall x h
      · simp only [hc]
        constructor
        · intro h; simp at h
        · intro h
          exact absurd (h c (List.mem_cons_self c cs)) hc
    | cons d ds =>
      rw [hrest] at ih
      constructor
      · intro h; simp at h
      · intro h
        have := ih.mpr (fun x hx => h x (List.mem_cons_of_mem c hx))
        simp at this

theorem trimChars_eq_nil_iff (cs : List Char) :
    trimChars cs = [] ↔ ∀ c ∈ cs, isJsWhiteSpace c = true := by
  unfold trimChars
  rw [dropTrailingWhiteSpace_eq_nil_iff]
  constructor
  · intro h
    have hnil : cs.dropWhile isJsWhiteSpace = [] := by
      cases hd : cs.dropWhile isJsWhiteSpace with
      | nil => rfl
      | cons x xs =>
        have hx : isJsWhiteSpace x = true := h x (by rw [hd]; exact List.mem_cons_self x xs)
        have hhead := List.head_dropWhile_not isJsWhiteSpace cs (by rw [hd]; simp)
        simp only [hd, List.head_cons] at hhead
        rw [hx] at hhead
        simp at hhead
    exact List.dropWhile_eq_nil_iff.mp hnil
  · intro h
    rw [List.dropWhile_eq_nil_iff.mpr h]
    simp

theorem jsTrim_eq_empty_iff (s : String) :
    jsTrim s = "" ↔ ∀ c ∈ s.data, isJsWhiteSpace c = true := by
  rw [← trimChars_eq_nil_iff]
  unfold jsTrim
  constructor
  · intro h
    exact congrArg String.data h
  · intro h
    rw [h]

/-! ## Lemmas on the key loader -/

theorem mapThrowing_ok_iff {α β : Type} (f : α → Except String β) (xs : List α)
    (ys : List β) :
    mapThrowing f xs = Except.ok ys ↔ List.Forall₂ (fun x y => f x = Except.ok y) xs ys := by
  induction xs generalizing ys with
  | nil =>
    cases ys <;> simp [mapThrowing]
  | cons x xs ih =>
    unfold mapThrowing
    cases hx : f x with
    | error e =>
      constructor
      · intro h; cases h
      · intro h
        cases h with
        | cons h1 _ => rw [hx] at h1; cases h1
    | ok y =>
      cases hxs : mapThrowing f xs with
      | error e =>
        constructor
        · intro h; cases h
        · intro h
          cases h with
          | cons _ h2 =>
            have := (ih _).mpr h2
            rw [hxs] at this; cases this
      | ok zs =>
        constructor
        · intro h
          cases h
          exact List.Forall₂.cons hx ((ih zs).mp hxs)
        · intro h
          cases h with
          | cons h1 h2 =>
            rw [hx] at h1
            cases h1
            have := (ih _).mpr h2
            rw [hxs] at this
            cases this
            rfl

theorem mapThrowing_ok_of_forall {α β : Type} (f : α → Except String β) (xs : List α)
    (h : ∀ x ∈ xs, ∃ y, f x = Except.ok y) : ∃ ys, mapThrowing f xs = Except.ok ys := by
  induction xs with
  | nil => exact ⟨[], rfl⟩
  | cons x xs ih =>
    obtain ⟨y, hy⟩ := h x (List.mem_cons_self x xs)
    obtain ⟨ys, hys⟩ := ih (fun z hz => h z (List.mem_cons_of_mem x hz))
    exact ⟨y :: ys, by simp [mapThrowing, hy, hys]⟩

theorem mapThrowing_error_of_mem {α β : Type} (f : α → Except String β) (xs : List α)
    (x : α) (hx : x ∈ xs) (e : String) (hf : f x = Except.error e) :
    ∃ e1, mapThrowing f xs = Except.error e1 := by
  induction xs with
  | nil => cases hx
  | cons a as ih =>
    unfold mapThrowing
    cases ha : f a with
    | error e1 => exact ⟨e1, rfl⟩
    | ok b =>
      rcases List.mem_cons.mp hx with h | h
      · subst h
        rw [hf] at ha
        cases ha
      · obtain ⟨e1, he1⟩ := ih h
        exact ⟨e1, by simp [he1]⟩

theorem mem_keyLines (content line : String) :
    line ∈ keyLines content ↔
      ∃ raw ∈ jsSplit content (Char.ofNat 10), jsTrim raw = line ∧ line ≠ "" := by
  simp only [keyLines, jsBoolean, List.mem_filter, List.mem_map]
  constructor
  · rintro ⟨⟨raw, hraw, rfl⟩, hne⟩
    exact ⟨raw, hraw, rfl, by simpa using hne⟩
  · rintro ⟨raw, hraw, rfl, hne⟩
    exact ⟨⟨raw, hraw, rfl⟩, by simpa using hne⟩

theorem keyLines_length (content : String) :
    (keyLines content).length =
      (jsSplit content (Char.ofNat 10)).countP (fun raw => decide (jsTrim raw ≠ "")) := by
  unfold keyLines
  generalize jsSplit content (Char.ofNat 10) = raws
  induction raws with
  | nil => rfl
  | cons r rs ih =>
    by_cases h : jsTrim r = ""
    · simp only [List.map_cons, List.countP_cons]
      rw [List.filter_cons_of_neg (by simp [jsBoolean, h])]
      simp [h, ih]
    · simp only [List.map_cons, List.countP_cons]
      rw [List.filter_cons_of_pos (by simp [jsBoolean, h])]
      simp [h, ih]

/-! ## Lemmas on the number model -/

theorem bitLengthAux_zero (fuel : Nat) : bitLengthAux fuel 0 = 0 := by
  cases fuel <;> simp [bitLengthAux]

theorem bitLengthAux_bounds (fuel : Nat) :
    ∀ n, n ≤ fuel → n ≠ 0 →
      2 ^ bitLengthAux fuel n ≤ 2 * n ∧ n < 2 ^ bitLengthAux fuel n := by
  induction fuel with
  | zero =>
    intro n hn h0
    omega
  | succ fuel ih =>
    intro n hn h0
    simp only [bitLengthAux, h0, if_false]
    by_cases h2 : n / 2 = 0
    · have h1 : n = 1 := by omega
      subst h1
      simp [bitLengthAux_zero]
    · obtain ⟨hlo, hhi⟩ := ih (n / 2) (by omega) h2
      rw [pow_succ]
      constructor <;> omega

theorem bitLength_bounds (n : Nat) (h0 : n ≠ 0) :
    2 ^ bitLength n ≤ 2 * n ∧ n < 2 ^ bitLength n :=
  bitLengthAux_bounds n n (Nat.le_refl n) h0

theorem roundNat_of_lt (n : Nat) (h : n < 2 ^ 53) : roundNat n = n := by
  rw [roundNat, if_pos h]

theorem roundNat_pos (n : Nat) (h : 0 < n) : 0 < roundNat n := by
  unfold roundNat
  by_cases hlt : n < 2 ^ 53
  · rw [if_pos hlt]
    exact h
  · rw [if_neg hlt]
    obtain ⟨hlo, hhi⟩ := bitLength_bounds n (by omega)
    have hbl : 53 < bitLength n := by
      by_contra hc
      have : 2 ^ bitLength n ≤ 2 ^ 53 := Nat.pow_le_pow_right (by norm_num) (by omega)
      omega
    have hsplit : 2 ^ bitLength n = 2 ^ (bitLength n - 53) * 2 ^ 53 := by
      rw [← pow_add]
      congr 1
      omega
    have hpos : 0 < 2 ^ (bitLength n - 53) := Nat.two_pow_pos _
    have hle : 2 ^ (bitLength n - 53) ≤ n := by
      have h53 : (2 : Nat) ^ 53 = 2 * 2 ^ 52 := by norm_num
      rw [hsplit, h53] at hlo
      have : 2 ^ (bitLength n - 53) * (2 * 2 ^ 52) = 2 * (2 ^ 52 * 2 ^ (bitLength n - 53)) := by
        ring
      rw [this] at hlo
      have h3 : 2 ^ 52 * 2 ^ (bitLength n - 53) ≤ n := by omega
      calc 2 ^ (bitLength n - 53) = 1 * 2 ^ (bitLength n - 53) := by ring
        _ ≤ 2 ^ 52 * 2 ^ (bitLength n - 53) := Nat.mul_le_mul_right _ (by norm_num)
        _ ≤ n := h3
    have hq : 0 < n / 2 ^ (bitLength n - 53) := Nat.div_pos hle hpos
    show 0 < if _ then _ else _
    split
    · exact Nat.mul_pos (by omega) hpos
    · exact Nat.mul_pos hq hpos

theorem jsSub_of_small (a b : Int) (h1 : a - b < 2 ^ 53) (h2 : b - a < 2 ^ 53) :
    jsSub a b = a - b := by
  unfold jsSub
  by_cases h : 0 ≤ a - b
  · simp only [h, if_true]
    rw [roundNat_of_lt _ (by omega)]
    omega
  · simp only [h, if_false]
    rw [roundNat_of_lt _ (by omega)]
    omega

theorem jsSub_pos (a b : Int) (h : b < a) : 0 < jsSub a b := by
  unfold jsSub
  have h0 : 0 ≤ a - b := by omega
  simp only [h0, if_true]
  have := roundNat_pos (a - b).toNat (by omega)
  omega

theorem jsSub_eq_roundNat (a b : Int) (h : b ≤ a) :
    jsSub a b = (roundNat (a - b).toNat : Int) := by
  unfold jsSub
  have h0 : 0 ≤ a - b := by omega
  simp only [h0, if_true]

theorem two_pow_toNat_div (e : Int) :
    ((2 : Rat) ^ (-e).toNat) / (2 : Rat) ^ e.toNat = (2 : Rat) ^ (-e) := by
  rw [← zpow_natCast, ← zpow_natCast, ← zpow_sub₀ (by norm_num : (2 : Rat) ≠ 0)]
  congr 1
  omega

theorem roundAt_near (n d : Nat) (e : Int) (hd : 0 < d) :
    |(roundAt n d e : Rat) - (n : Rat) / d * (2 : Rat) ^ (-e)| ≤ 1 / 2 := by
  have hden : 0 < d * 2 ^ e.toNat := Nat.mul_pos hd (Nat.two_pow_pos _)
  have hX : (n : Rat) / d * (2 : Rat) ^ (-e) =
      ((n * 2 ^ (-e).toNat : Nat) : Rat) / ((d * 2 ^ e.toNat : Nat) : Rat) := by
    rw [← two_pow_toNat_div]
    push_cast
    field_simp
  rw [hX]
  unfold roundAt
  dsimp only
  generalize n * 2 ^ (-e).toNat = num
  generalize d * 2 ^ e.toNat = den at hden
  have hdenQ : (0 : Rat) < (den : Rat) := by exact_mod_cast hden
  have hdm : den * (num / den) + num % den = num := Nat.div_add_mod num den
  have hr : num % den < den := Nat.mod_lt _ hden
  have hdmQ : (num : Rat) = den * ((num / den : Nat) : Rat) + ((num % den : Nat) : Rat) := by
    exact_mod_cast hdm.symm
  generalize num / den = q at *
  generalize num % den = r at *
  have hrQ : (r : Rat) < den := by exact_mod_cast hr
  have h0 : (0 : Rat) ≤ r := by exact_mod_cast Nat.zero_le r
  have hfrac : (num : Rat) / den = q + (r : Rat) / den := by
    rw [hdmQ]
    field_simp
    ring
  rw [hfrac, abs_le]
  split
  · rename_i hc
    have h2 : (den : Rat) ≤ 2 * r := by
      rcases hc with hc | hc
      · exact_mod_cast Nat.le_of_lt hc
      · exact_mod_cast Nat.le_of_eq hc.1.symm
    have h3 : (1 : Rat) / 2 ≤ (r : Rat) / den := by
      rw [le_div_iff₀ hdenQ]
      linarith
    have h4 : (r : Rat) / den ≤ 1 := by
      rw [div_le_iff₀ hdenQ]
      linarith
    push_cast
    constructor <;> linarith
  · rename_i hc
    have h2 : 2 * (r : Rat) ≤ den := by
      have : 2 * r ≤ den := by
        by_contra hlt
        exact hc (Or.inl (by omega))
      exact_mod_cast this
    have h3 : (r : Rat) / den ≤ 1 / 2 := by
      rw [div_le_iff₀ hdenQ]
      linarith
    have h4 : (0 : Rat) ≤ (r : Rat) / den := div_nonneg h0 (le_of_lt hdenQ)
    constructor <;> linarith

theorem quotExponent_scaled_ge (n d : Nat) (hn : 0 < n) (hd : 0 < d) :
    (2 : Rat) ^ 52 ≤ (n : Rat) / d * (2 : Rat) ^ (-quotExponent n d) := by
  have hnQ : (0 : Rat) < n := by exact_mod_cast hn
  have hdQ : (0 : Rat) < d := by exact_mod_cast hd
  obtain ⟨hnlo, _⟩ := bitLength_bounds n (by omega)
  obtain ⟨_, hdhi⟩ := bitLength_bounds d (by omega)
  have hA : ((2 : Rat) ^ bitLength n) ≤ 2 * n := by exact_mod_cast hnlo
  have hB : (d : Rat) < (2 : Rat) ^ bitLength d := by exact_mod_cast hdhi
  have hApos : (0 : Rat) < (2 : Rat) ^ bitLength n := by positivity
  have hBpos : (0 : Rat) < (2 : Rat) ^ bitLength d := by positivity
  unfold quotExponent
  dsimp only
  split
  · have hexp : (2 : Rat) ^ (-((bitLength n : Int) - (bitLength d : Int) - 53)) =
        (2 : Rat) ^ bitLength d * 2 ^ 53 / 2 ^ bitLength n := by
      have : -((bitLength n : Int) - (bitLength d : Int) - 53) =
          ((bitLength d : Int) + (53 : Nat)) - (bitLength n : Int) := by push_cast; ring
      rw [this, zpow_sub₀ (by norm_num : (2 : Rat) ≠ 0),
        zpow_add₀ (by norm_num : (2 : Rat) ≠ 0), zpow_natCast, zpow_natCast, zpow_natCast]
    rw [hexp, div_mul_div_comm, le_div_iff₀ (by positivity)]
    have h1 : (2 : Rat) ^ bitLength n * d ≤ 2 * n * 2 ^ bitLength d := by
      calc (2 : Rat) ^ bitLength n * d ≤ (2 * n) * d := by
            exact mul_le_mul_of_nonneg_right hA (le_of_lt hdQ)
        _ ≤ (2 * n) * 2 ^ bitLength d := by
            exact mul_le_mul_of_nonneg_left (le_of_lt hB) (by positivity)
    nlinarith
  · rename_i hc
    have hge : 2 ^ 53 * (d * 2 ^ ((bitLength n : Int) - (bitLength d : Int) - 53).toNat) ≤
        n * 2 ^ (-((bitLength n : Int) - (bitLength d : Int) - 53)).toNat := by
      have h1 := Nat.le_of_not_lt hc
      have hpos : 0 < d * 2 ^ ((bitLength n : Int) - (bitLength d : Int) - 53).toNat :=
        Nat.mul_pos hd (Nat.two_pow_pos _)
      exact (Nat.le_div_iff_mul_le hpos).mp h1
    generalize (bitLength n : Int) - (bitLength d : Int) - 53 = e0 at hge ⊢
    have hgeQ : (2 : Rat) ^ 53 * (d * 2 ^ e0.toNat) ≤ n * 2 ^ (-e0).toNat := by
      exact_mod_cast hge
    have hexp : (2 : Rat) ^ (-(e0 + 1)) = (2 : Rat) ^ (-e0).toNat / 2 ^ e0.toNat / 2 := by
      rw [two_pow_toNat_div, neg_add, zpow_add₀ (by norm_num : (2 : Rat) ≠ 0)]
      norm_num
      ring
    have hb0 : (0 : Rat) < (2 : Rat) ^ e0.toNat := by positivity
    rw [hexp, div_div, div_mul_div_comm, le_div_iff₀ (by positivity)]
    nlinarith

theorem jsDiv_zero (d : Nat) : jsDiv 0 d = 0 := by
  simp [jsDiv]

theorem jsDiv_error (n d : Nat) (hd : 0 < d) :
    |jsDiv n d - (n : Rat) / d| ≤ (n : Rat) / d / 2 ^ 53 := by
  by_cases hn : n = 0
  · subst hn
    simp [jsDiv]
  · have hnpos : 0 < n := Nat.pos_of_ne_zero hn
    have hnear := roundAt_near n d (quotExponent n d) hd
    have hge := quotExponent_scaled_ge n d hnpos hd
    unfold jsDiv roundQuot
    rw [if_neg hn]
    dsimp only
    generalize quotExponent n d = e at hnear hge
    generalize (roundAt n d e : Rat) = m at hnear
    have hpe : (0 : Rat) < (2 : Rat) ^ e := by positivity
    have hinv : (2 : Rat) ^ (-e) * (2 : Rat) ^ e = 1 := by
      rw [← zpow_add₀ (by norm_num : (2 : Rat) ≠ 0)]
      simp
    generalize (n : Rat) / d = x at hnear hge ⊢
    have hx : x = x * (2 : Rat) ^ (-e) * (2 : Rat) ^ e := by
      rw [mul_assoc, hinv, mul_one]
    have hfac : m * (2 : Rat) ^ e - x = (m - x * (2 : Rat) ^ (-e)) * (2 : Rat) ^ e := by
      rw [sub_mul, ← hx]
    rw [hfac, abs_mul, abs_of_pos hpe]
    have h1 : |m - x * (2 : Rat) ^ (-e)| * (2 : Rat) ^ e ≤ 1 / 2 * (2 : Rat) ^ e :=
      mul_le_mul_of_nonneg_right hnear (le_of_lt hpe)
    have h2 : (2 : Rat) ^ 52 * (2 : Rat) ^ e ≤ x := by
      rw [hx]
      exact mul_le_mul_of_nonneg_right hge (le_of_lt hpe)
    rw [le_div_iff₀ (by positivity)]
    nlinarith

theorem jsDiv_of_multiple (k d : Nat) (hd : 0 < d) (hk : k < 2 ^ 53) :
    jsDiv (k * d) d = (k : Rat) := by
  by_cases hk0 : k = 0
  · subst hk0
    simp [jsDiv]
  have hkpos : 0 < k := Nat.pos_of_ne_zero hk0
  have hn : 0 < k * d := Nat.mul_pos hkpos hd
  have hdQ : (d : Rat) ≠ 0 := by exact_mod_cast (Nat.pos_iff_ne_zero.mp hd)
  have hge := quotExponent_scaled_ge (k * d) d hn hd
  have hquot : ((k * d : Nat) : Rat) / d = k := by
    push_cast
    field_simp
  rw [hquot] at hge
  unfold jsDiv roundQuot
  rw [if_neg (by omega)]
  dsimp only
  generalize quotExponent (k * d) d = e at hge
  have hkQ : (k : Rat) < 2 ^ 53 := by exact_mod_cast hk
  have he : e ≤ 0 := by
    by_contra hpos
    have h1 : (1 : Int) ≤ e := by omega
    have h2 : (2 : Rat) ^ (-e) ≤ (2 : Rat) ^ (-1 : Int) :=
      zpow_le_zpow_right₀ (by norm_num) (by omega)
    have h3 : (k : Rat) * (2 : Rat) ^ (-e) ≤ (k : Rat) * (2 : Rat) ^ (-1 : Int) :=
      mul_le_mul_of_nonneg_left h2 (by positivity)
    have h4 : (k : Rat) * (2 : Rat) ^ (-1 : Int) < 2 ^ 52 := by
      rw [zpow_neg_one]
      linarith
    linarith
  obtain ⟨a, rfl⟩ : ∃ a : Nat, e = -(a : Int) := ⟨(-e).toNat, by omega⟩
  have hround : roundAt (k * d) d (-(a : Int)) = k * 2 ^ a := by
    unfold roundAt
    have h1 : (- -(a : Int)).toNat = a := by omega
    have h2 : (-(a : Int)).toNat = 0 := by omega
    rw [h1, h2]
    dsimp only
    rw [pow_zero, Nat.mul_one]
    have hmul : k * d * 2 ^ a = d * (k * 2 ^ a) := by ring
    rw [hmul, Nat.mul_mod_right, Nat.mul_div_cancel_left _ hd]
    rw [if_neg]
    rintro (h | ⟨h, _⟩) <;> omega
  rw [hround]
  push_cast
  rw [mul_assoc, zpow_neg, zpow_natCast, mul_inv_cancel₀ (by positivity), mul_one]

/-! ## Lemmas on traces and on the two loops -/

theorem queriedAddresses_append (xs ys : List Event) :
    queriedAddresses (xs ++ ys) = queriedAddresses xs ++ queriedAddresses ys := by
  induction xs with
  | nil => rfl
  | cons x xs ih => cases x <;> simp [queriedAddresses, ih]

theorem transfersBuilt_append (xs ys : List Event) :
    transfersBuilt (xs ++ ys) = transfersBuilt xs ++ transfersBuilt ys := by
  induction xs with
  | nil => rfl
  | cons x xs ih => cases x <;> simp [transfersBuilt, ih]

theorem transactionsSubmitted_append (xs ys : List Event) :
    transactionsSubmitted (xs ++ ys) = transactionsSubmitted xs ++ transactionsSubmitted ys := by
  induction xs with
  | nil => rfl
  | cons x xs ih => cases x <;> simp [transactionsSubmitted, ih]

theorem transfersSent_append (xs ys : List Event) :
    transfersSent (xs ++ ys) = transfersSent xs ++ transfersSent ys := by
  induction xs with
  | nil => rfl
  | cons x xs ih =>
    cases x with
    | console line => cases line <;> simp [transfersSent, ih]
    | _ => simp [transfersSent, ih]

theorem filesWritten_append (xs ys : List Event) :
    filesWritten (xs ++ ys) = filesWritten xs ++ filesWritten ys := by
  induction xs with
  | nil => rfl
  | cons x xs ih => cases x <;> simp [filesWritten, ih]

theorem filesRead_append (xs ys : List Event) :
    filesRead (xs ++ ys) = filesRead xs ++ filesRead ys := by
  induction xs with
  | nil => rfl
  | cons x xs ih => cases x <;> simp [filesRead, ih]

theorem checkSteps_length (env : Env) (i : Nat) (kps : List Keypair) :
    (checkSteps env i kps).length = kps.length := by
  induction kps generalizing i with
  | nil => rfl
  | cons kp rest ih => simp [checkSteps, ih]

theorem checkSteps_getElem? (env : Env) (i n : Nat) (kps : List Keypair) :
    (checkSteps env i kps)[n]? = (kps[n]?).map (checkOne env (i + n)) := by
  induction kps generalizing i n with
  | nil => simp [checkSteps]
  | cons kp rest ih =>
    cases n with
    | zero => simp [checkSteps]
    | succ n =>
      simp only [checkSteps, List.getElem?_cons_succ]
      rw [ih, Nat.add_right_comm, Nat.add_assoc]

theorem collectOne_of_error (env : Env) (i : Nat) (kp : Keypair) (e : String)
    (hq : env.getBalance i kp.publicKey = Except.error e) :
    collectOne env i kp =
      { trace :=
          [Event.getBalance kp.publicKey,
           Event.console (LogLine.balanceError kp.publicKey.toBase58 e)],
        outcome := Except.ok () } := by
  unfold collectOne
  dsimp only
  rw [hq]

theorem collectOne_of_small (env : Env) (i : Nat) (kp : Keypair) (b : Nat)
    (hq : env.getBalance i kp.publicKey = Except.ok b) (hb : b ≤ 5000) :
    collectOne env i kp =
      { trace :=
          [Event.getBalance kp.publicKey,
           Event.console
             (LogLine.walletBalance kp.publicKey.toBase58 (jsDiv b LAMPORTS_PER_SOL)),
           Event.console (if b = 0 then LogLine.zeroBalance else LogLine.insufficientForFee)],
        outcome := Except.ok () } := by
  unfold collectOne
  dsimp only
  rw [hq]
  dsimp only
  by_cases h0 : b = 0
  · simp [h0]
  · have hsub : jsSub (b : Int) 5000 = (b : Int) - 5000 :=
      jsSub_of_small _ _ (by norm_num; omega) (by norm_num; omega)
    have hle : jsSub (b : Int) 5000 ≤ 0 := by rw [hsub]; omega
    simp [h0, hle]

theorem collectOne_of_large (env : Env) (i : Nat) (kp : Keypair) (b : Nat)
    (hq : env.getBalance i kp.publicKey = Except.ok b) (hb : 5000 < b)
    (hfit : jsSub b 5000 < 2 ^ 64) :
    collectOne env i kp =
      { trace :=
          [Event.getBalance kp.publicKey,
           Event.console
             (LogLine.walletBalance kp.publicKey.toBase58 (jsDiv b LAMPORTS_PER_SOL)),
           Event.transfer
             { fromPubkey := kp.publicKey, toPubkey := env.TARGET_ADDRESS,
               lamports := jsSub b 5000 },
           Event.sendAndConfirmTransaction
             { instructions :=
                 [{ fromPubkey := kp.publicKey, toPubkey := env.TARGET_ADDRESS,
                    lamports := jsSub b 5000 }] }
             [kp] confirmOptions,
           Event.console
             (match env.sendAndConfirmTransaction i
                 { instructions :=
                     [{ fromPubkey := kp.publicKey, toPubkey := env.TARGET_ADDRESS,
                        lamports := jsSub b 5000 }] }
                 [kp] confirmOptions with
              | Except.ok signature =>
                LogLine.sent (jsDiv (jsSub b 5000).toNat LAMPORTS_PER_SOL) signature
              | Except.error err => LogLine.txError err)],
        outcome := Except.ok () } := by
  unfold collectOne
  dsimp only
  rw [hq]
  dsimp only
  have h0 : b ≠ 0 := by omega
  have hpos : 0 < jsSub (b : Int) 5000 := jsSub_pos (b : Int) 5000 (by omega)
  have hnot : ¬ jsSub (b : Int) 5000 ≤ 0 := by omega
  rw [if_neg h0, if_neg hnot]
  have htr : SystemProgram.transfer kp.publicKey env.TARGET_ADDRESS (jsSub (b : Int) 5000) =
      Except.ok
        { fromPubkey := kp.publicKey, toPubkey := env.TARGET_ADDRESS,
          lamports := jsSub b 5000 } := by
    unfold SystemProgram.transfer
    rw [if_pos ⟨by omega, hfit⟩]
  rw [htr]
  dsimp only
  simp only [Transaction.add, List.nil_append]
  cases env.sendAndConfirmTransaction i _ [kp] confirmOptions <;> simp

theorem collectOne_of_overflow (env : Env) (i : Nat) (kp : Keypair) (b : Nat)
    (hq : env.getBalance i kp.publicKey = Except.ok b) (hb : 5000 < b)
    (hfit : ¬ jsSub b 5000 < 2 ^ 64) :
    ∃ e, collectOne env i kp =
      { trace :=
          [Event.getBalance kp.publicKey,
           Event.console
             (LogLine.walletBalance kp.publicKey.toBase58 (jsDiv b LAMPORTS_PER_SOL))],
        outcome := Except.error e } := by
  unfold collectOne
  dsimp only
  rw [hq]
  dsimp only
  have h0 : b ≠ 0 := by omega
  have hpos : 0 < jsSub (b : Int) 5000 := jsSub_pos (b : Int) 5000 (by omega)
  have hnot : ¬ jsSub (b : Int) 5000 ≤ 0 := by omega
  rw [if_neg h0, if_neg hnot]
  unfold SystemProgram.transfer
  rw [if_neg (fun h => hfit h.2)]
  exact ⟨_, rfl⟩

theorem collectLoop_cons_ok (env : Env) (i : Nat) (kp : Keypair) (rest : List Keypair)
    (h : (collectOne env i kp).outcome = Except.ok ()) :
    collectLoop env i (kp :: rest) =
      ((collectOne env i kp).trace :: (collectLoop env (i + 1) rest).1,
       (collectLoop env (i + 1) rest).2) := by
  rw [collectLoop, h]

theorem collectLoop_cons_error (env : Env) (i : Nat) (kp : Keypair) (rest : List Keypair)
    (e : String) (h : (collectOne env i kp).outcome = Except.error e) :
    collectLoop env i (kp :: rest) =
      ((collectOne env i kp).trace :: rest.map (fun _ => []), Except.error e) := by
  rw [collectLoop, h]

theorem outcome_cases (r : Run) :
    r.outcome = Except.ok () ∨ ∃ e, r.outcome = Except.error e := by
  cases h : r.outcome with
  | error e => exact Or.inr ⟨e, rfl⟩
  | ok u => exact Or.inl rfl

theorem collectSteps_cons_ok (env : Env) (i : Nat) (kp : Keypair) (rest : List Keypair)
    (h : (collectOne env i kp).outcome = Except.ok ()) :
    collectSteps env i (kp :: rest) =
      (collectOne env i kp).trace :: collectSteps env (i + 1) rest := by
  unfold collectSteps
  rw [collectLoop_cons_ok env i kp rest h]

theorem collectSteps_cons_error (env : Env) (i : Nat) (kp : Keypair) (rest : List Keypair)
    (e : String) (h : (collectOne env i kp).outcome = Except.error e) :
    collectSteps env i (kp :: rest) =
      (collectOne env i kp).trace :: rest.map (fun _ => []) := by
  unfold collectSteps
  rw [collectLoop_cons_error env i kp rest e h]

theorem collectSteps_length (env : Env) (i : Nat) (kps : List Keypair) :
    (collectSteps env i kps).length = kps.length := by
  induction kps generalizing i with
  | nil => rfl
  | cons kp rest ih =>
    rcases outcome_cases (collectOne env i kp) with h | ⟨e, h⟩
    · rw [collectSteps_cons_ok env i kp rest h]
      simp [ih]
    · rw [collectSteps_cons_error env i kp rest e h]
      simp

theorem jsSub_fits_or_not (b : Nat) :
    jsSub (b : Int) 5000 < 2 ^ 64 ∨ ¬ jsSub (b : Int) 5000 < 2 ^ 64 :=
  Decidable.em _

theorem collectOne_trace_ne_nil (env : Env) (i : Nat) (kp : Keypair) :
    (collectOne env i kp).trace ≠ [] := by
  cases hq : env.getBalance i kp.publicKey with
  | error e =>
    rw [collectOne_of_error env i kp e hq]
    simp
  | ok b =>
    by_cases hb : b ≤ 5000
    · rw [collectOne_of_small env i kp b hq hb]
      simp
    · rcases jsSub_fits_or_not b with hfit | hfit
      · rw [collectOne_of_large env i kp b hq (by omega) hfit]
        simp
      · obtain ⟨e, he⟩ := collectOne_of_overflow env i kp b hq (by omega) hfit
        rw [he]
        simp

theorem queriedAddresses_collectOne (env : Env) (i : Nat) (kp : Keypair) :
    queriedAddresses (collectOne env i kp).trace = [kp.publicKey] := by
  cases hq : env.getBalance i kp.publicKey with
  | error e =>
    rw [collectOne_of_error env i kp e hq]
    rfl
  | ok b =>
    by_cases hb : b ≤ 5000
    · rw [collectOne_of_small env i kp b hq hb]
      rfl
    · rcases jsSub_fits_or_not b with hfit | hfit
      · rw [collectOne_of_large env i kp b hq (by omega) hfit]
        rfl
      · obtain ⟨e, he⟩ := collectOne_of_overflow env i kp b hq (by omega) hfit
        rw [he]
        rfl

theorem filesWritten_collectOne (env : Env) (i : Nat) (kp : Keypair) :
    filesWritten (collectOne env i kp).trace = [] := by
  cases hq : env.getBalance i kp.publicKey with
  | error e =>
    rw [collectOne_of_error env i kp e hq]
    rfl
  | ok b =>
    by_cases hb : b ≤ 5000
    · rw [collectOne_of_small env i kp b hq hb]
      rfl
    · rcases jsSub_fits_or_not b with hfit | hfit
      · rw [collectOne_of_large env i kp b hq (by omega) hfit]
        rfl
      · obtain ⟨e, he⟩ := collectOne_of_overflow env i kp b hq (by omega) hfit
        rw [he]
        rfl

theorem transfersBuilt_collectOne_sources (env : Env) (i : Nat) (kp : Keypair) :
    ((transfersBuilt (collectOne env i kp).trace).map TransferInstruction.fromPubkey).Sublist
      [kp.publicKey] := by
  cases hq : env.getBalance i kp.publicKey with
  | error e =>
    rw [collectOne_of_error env i kp e hq]
    exact List.nil_sublist _
  | ok b =>
    by_cases hb : b ≤ 5000
    · rw [collectOne_of_small env i kp b hq hb]
      exact List.nil_sublist _
    · rcases jsSub_fits_or_not b with hfit | hfit
      · rw [collectOne_of_large env i kp b hq (by omega) hfit]
        exact List.Sublist.refl _
      · obtain ⟨e, he⟩ := collectOne_of_overflow env i kp b hq (by omega) hfit
        rw [he]
        exact List.nil_sublist _

theorem transactionsSubmitted_collectOne_signers (env : Env) (i : Nat) (kp : Keypair) :
    ((transactionsSubmitted (collectOne env i kp).trace).map Prod.snd).Sublist [[kp]] := by
  cases hq : env.getBalance i kp.publicKey with
  | error e =>
    rw [collectOne_of_error env i kp e hq]
    exact List.nil_sublist _
  | ok b =>
    by_cases hb : b ≤ 5000
    · rw [collectOne_of_small env i kp b hq hb]
      exact List.nil_sublist _
    · rcases jsSub_fits_or_not b with hfit | hfit
      · rw [collectOne_of_large env i kp b hq (by omega) hfit]
        exact List.Sublist.refl _
      · obtain ⟨e, he⟩ := collectOne_of_overflow env i kp b hq (by omega) hfit
        rw [he]
        exact List.nil_sublist _

theorem flatten_map_nil {α β : Type} (xs : List α) :
    (xs.map (fun _ => ([] : List β))).flatten = [] := by
  induction xs with
  | nil => rfl
  | cons x xs ih => simp

theorem observed_sublist {α : Type} (obs : List Event → List α)
    (hnil : obs [] = []) (happ : ∀ xs ys, obs (xs ++ ys) = obs xs ++ obs ys)
    (f : Keypair → List α) (env : Env)
    (hturn : ∀ i kp, (obs (collectOne env i kp).trace).Sublist (f kp))
    (i : Nat) (kps : List Keypair) :
    (obs (collectSteps env i kps).flatten).Sublist (kps.map f).flatten := by
  induction kps generalizing i with
  | nil =>
    show (obs []).Sublist []
    rw [hnil]
  | cons kp rest ih =>
    rcases outcome_cases (collectOne env i kp) with h | ⟨e, h⟩
    · rw [collectSteps_cons_ok env i kp rest h]
      simp only [List.flatten_cons, List.map_cons, happ]
      exact List.Sublist.append (hturn i kp) (ih (i + 1))
    · rw [collectSteps_cons_error env i kp rest e h]
      simp only [List.flatten_cons, List.map_cons, happ, flatten_map_nil, hnil,
        List.append_nil]
      exact (hturn i kp).trans (List.sublist_append_left _ _)

theorem flatten_map_singleton {α β : Type} (g : α → β) (xs : List α) :
    (xs.map (fun x => [g x])).flatten = xs.map g := by
  induction xs with
  | nil => rfl
  | cons x xs ih => simpa using ih

theorem queriedAddresses_collectSteps_sublist (env : Env) (i : Nat) (kps : List Keypair) :
    (queriedAddresses (collectSteps env i kps).flatten).Sublist
      (kps.map Keypair.publicKey) := by
  have h := observed_sublist queriedAddresses rfl queriedAddresses_append
    (fun kp => [kp.publicKey]) env
    (fun i kp => by rw [queriedAddresses_collectOne]) i kps
  rwa [flatten_map_singleton] at h

theorem transfersBuilt_collectSteps_sources (env : Env) (i : Nat) (kps : List Keypair) :
    ((transfersBuilt (collectSteps env i kps).flatten).map
      TransferInstruction.fromPubkey).Sublist (kps.map Keypair.publicKey) := by
  have h := observed_sublist
    (fun t => (transfersBuilt t).map TransferInstruction.fromPubkey) rfl
    (fun xs ys => by simp [transfersBuilt_append])
    (fun kp => [kp.publicKey]) env
    (fun i kp => transfersBuilt_collectOne_sources env i kp) i kps
  rwa [flatten_map_singleton] at h

theorem transactionsSubmitted_collectSteps_signers (env : Env) (i : Nat)
    (kps : List Keypair) :
    ((transactionsSubmitted (collectSteps env i kps).flatten).map Prod.snd).Sublist
      (kps.map (fun kp => [kp])) := by
  have h := observed_sublist
    (fun t => (transactionsSubmitted t).map Prod.snd) rfl
    (fun xs ys => by simp [transactionsSubmitted_append])
    (fun kp => [[kp]]) env
    (fun i kp => transactionsSubmitted_collectOne_signers env i kp) i kps
  rwa [flatten_map_singleton] at h

theorem filesWritten_collectSteps (env : Env) (i : Nat) (kps : List Keypair) :
    filesWritten (collectSteps env i kps).flatten = [] := by
  have h := observed_sublist filesWritten rfl filesWritten_append
    (fun _ => []) env
    (fun i kp => by rw [filesWritten_collectOne]) i kps
  rw [flatten_map_nil] at h
  exact List.eq_nil_of_sublist_nil h

theorem collectSteps_getElem?_cases (env : Env) (i n : Nat) (kps : List Keypair)
    (kp : Keypair) (hkp : kps[n]? = some kp) :
    (collectSteps env i kps)[n]? = some (collectOne env (i + n) kp).trace ∨
      (collectSteps env i kps)[n]? = some [] := by
  induction kps generalizing i n with
  | nil => simp at hkp
  | cons k rest ih =>
    rcases outcome_cases (collectOne env i k) with h | ⟨e, h⟩
    · rw [collectSteps_cons_ok env i k rest h]
      cases n with
      | zero =>
        simp only [List.getElem?_cons_zero, Option.some.injEq] at hkp
        subst hkp
        exact Or.inl (by simp)
      | succ n =>
        simp only [List.getElem?_cons_succ] at hkp ⊢
        have := ih (i + 1) n hkp
        rwa [Nat.add_right_comm, Nat.add_assoc] at this
    · rw [collectSteps_cons_error env i k rest e h]
      cases n with
      | zero =>
        simp only [List.getElem?_cons_zero, Option.some.injEq] at hkp
        subst hkp
        exact Or.inl (by simp)
      | succ n =>
        simp only [List.getElem?_cons_succ] at hkp ⊢
        right
        rw [List.getElem?_map, hkp]
        rfl

theorem collectSteps_getElem?_of_ok (env : Env) (i n : Nat) (kps : List Keypair)
    (kp : Keypair) (hkp : kps[n]? = some kp)
    (hreach : ∀ j kpj, j < n → kps[j]? = some kpj →
      (collectOne env (i + j) kpj).outcome = Except.ok ()) :
    (collectSteps env i kps)[n]? = some (collectOne env (i + n) kp).trace := by
  induction kps generalizing i n with
  | nil => simp at hkp
  | cons k rest ih =>
    cases n with
    | zero =>
      simp only [List.getElem?_cons_zero, Option.some.injEq] at hkp
      subst hkp
      rcases outcome_cases (collectOne env i k) with h | ⟨e, h⟩
      · rw [collectSteps_cons_ok env i k rest h]
        simp
      · rw [collectSteps_cons_error env i k rest e h]
        simp
    | succ n =>
      have h0 : (collectOne env i k).outcome = Except.ok () := by
        have := hreach 0 k (by omega) (by simp)
        simpa using this
      rw [collectSteps_cons_ok env i k rest h0]
      simp only [List.getElem?_cons_succ] at hkp ⊢
      have := ih (i + 1) n hkp (fun j kpj hj hkpj => by
        have := hreach (j + 1) kpj (by omega) (by simpa using hkpj)
        rwa [← Nat.add_assoc, Nat.add_right_comm] at this)
      rwa [Nat.add_right_comm, Nat.add_assoc] at this

theorem collectSteps_reached (env : Env) (i n : Nat) (kps : List Keypair)
    (kp : Keypair) (t : List Event) (hkp : kps[n]? = some kp)
    (ht : (collectSteps env i kps)[n]? = some t) (hne : t ≠ []) :
    t = (collectOne env (i + n) kp).trace ∧
      ∀ j kpj, j < n → kps[j]? = some kpj →
        (collectOne env (i + j) kpj).outcome = Except.ok () := by
  induction kps generalizing i n with
  | nil => simp at hkp
  | cons k rest ih =>
    cases n with
    | zero =>
      simp only [List.getElem?_cons_zero, Option.some.injEq] at hkp
      subst hkp
      refine ⟨?_, fun j kpj hj _ => absurd hj (by omega)⟩
      rcases outcome_cases (collectOne env i k) with h | ⟨e, h⟩
      · rw [collectSteps_cons_ok env i k rest h] at ht
        simp only [List.getElem?_cons_zero, Option.some.injEq] at ht
        rw [← ht, Nat.add_zero]
      · rw [collectSteps_cons_error env i k rest e h] at ht
        simp only [List.getElem?_cons_zero, Option.some.injEq] at ht
        rw [← ht, Nat.add_zero]
    | succ n =>
      simp only [List.getElem?_cons_succ] at hkp
      rcases outcome_cases (collectOne env i k) with h | ⟨e, h⟩
      · rw [collectSteps_cons_ok env i k rest h] at ht
        simp only [List.getElem?_cons_succ] at ht
        obtain ⟨h1, h2⟩ := ih (i + 1) n hkp ht
        refine ⟨?_, ?_⟩
        · rw [h1, Nat.add_right_comm, Nat.add_assoc]
        · intro j kpj hj hkpj
          cases j with
          | zero =>
            simp only [List.getElem?_cons_zero, Option.some.injEq] at hkpj
            subst hkpj
            exact h
          | succ j =>
            simp only [List.getElem?_cons_succ] at hkpj
            have := h2 j kpj (by omega) hkpj
            rwa [Nat.add_right_comm, Nat.add_assoc] at this
      · rw [collectSteps_cons_error env i k rest e h] at ht
        simp only [List.getElem?_cons_succ] at ht
        rw [List.getElem?_map, hkp] at ht
        simp only [Option.map_some', Option.some.injEq] at ht
        exact absurd ht.symm hne

theorem collectOne_withoutAccount (env : Env) (n i : Nat) (kp : Keypair) :
    collectOne (env.withoutAccount n) i kp =
      collectOne env (if i < n then i else i + 1) kp := rfl

theorem collectLoop_withoutAccount_of_le (env : Env) (n i : Nat) (kps : List Keypair)
    (h : n ≤ i) :
    collectLoop (env.withoutAccount n) i kps = collectLoop env (i + 1) kps := by
  induction kps generalizing i with
  | nil => rfl
  | cons kp rest ih =>
    have hone : collectOne (env.withoutAccount n) i kp = collectOne env (i + 1) kp := by
      rw [collectOne_withoutAccount, if_neg (by omega)]
    rcases outcome_cases (collectOne env (i + 1) kp) with hk | ⟨e, hk⟩
    · rw [collectLoop_cons_ok env (i + 1) kp rest hk,
        collectLoop_cons_ok (env.withoutAccount n) i kp rest (by rw [hone]; exact hk),
        ih (i + 1) (by omega), hone]
    · rw [collectLoop_cons_error env (i + 1) kp rest e hk,
        collectLoop_cons_error (env.withoutAccount n) i kp rest e (by rw [hone]; exact hk),
        hone]

theorem collectLoop_eraseIdx (env : Env) (i n : Nat) (kps : List Keypair)
    (hok : ∀ j kpj, j ≤ n → kps[j]? = some kpj →
      (collectOne env (i + j) kpj).outcome = Except.ok ()) :
    (collectLoop env i kps).1.eraseIdx n =
        (collectLoop (env.withoutAccount (i + n)) i (kps.eraseIdx n)).1 ∧
      (collectLoop env i kps).2 =
        (collectLoop (env.withoutAccount (i + n)) i (kps.eraseIdx n)).2 := by
  induction kps generalizing i n with
  | nil => exact ⟨rfl, rfl⟩
  | cons k rest ih =>
    have h0 : (collectOne env i k).outcome = Except.ok () := by
      have := hok 0 k (by omega) (by simp)
      simpa using this
    rw [collectLoop_cons_ok env i k rest h0]
    cases n with
    | zero =>
      simp only [List.eraseIdx_cons_zero, Nat.add_zero]
      rw [collectLoop_withoutAccount_of_le env i i rest (Nat.le_refl i)]
      exact ⟨rfl, rfl⟩
    | succ n =>
      simp only [List.eraseIdx_cons_succ]
      have hone : collectOne (env.withoutAccount (i + (n + 1))) i k = collectOne env i k := by
        rw [collectOne_withoutAccount, if_pos (by omega)]
      rw [collectLoop_cons_ok (env.withoutAccount (i + (n + 1))) i k _
        (by rw [hone]; exact h0), hone]
      obtain ⟨h1, h2⟩ := ih (i + 1) n (fun j kpj hj hkpj => by
        have := hok (j + 1) kpj (by omega) (by simpa using hkpj)
        rwa [← Nat.add_assoc, Nat.add_right_comm] at this)
      have hidx : i + 1 + n = i + (n + 1) := by omega
      rw [hidx] at h1 h2
      exact ⟨by rw [h1], h2⟩

theorem transfersSent_flatten_eraseIdx (l : List (List Event)) (n : Nat) (t : List Event)
    (h : l[n]? = some t) (ht : transfersSent t = []) :
    transfersSent l.flatten = transfersSent (l.eraseIdx n).flatten := by
  induction l generalizing n with
  | nil => simp at h
  | cons x xs ih =>
    cases n with
    | zero =>
      simp only [List.getElem?_cons_zero, Option.some.injEq] at h
      subst h
      simp [transfersSent_append, ht]
    | succ n =>
      simp only [List.getElem?_cons_succ] at h
      simp [transfersSent_append, ih n h]

theorem collectOne_of_failure (env : Env) (i : Nat) (kp : Keypair)
    (hfail :
      (∃ e, Event.console (LogLine.balanceError kp.publicKey.toBase58 e) ∈
        (collectOne env i kp).trace) ∨
      (∃ e, Event.console (LogLine.txError e) ∈ (collectOne env i kp).trace)) :
    (collectOne env i kp).outcome = Except.ok () ∧
      transfersSent (collectOne env i kp).trace = [] := by
  cases hq : env.getBalance i kp.publicKey with
  | error e =>
    rw [collectOne_of_error env i kp e hq]
    exact ⟨rfl, rfl⟩
  | ok b =>
    by_cases hb : b ≤ 5000
    · rw [collectOne_of_small env i kp b hq hb]
      refine ⟨rfl, ?_⟩
      by_cases h0 : b = 0 <;> simp [h0, transfersSent]
    · rcases jsSub_fits_or_not b with hfit | hfit
      · rw [collectOne_of_large env i kp b hq (by omega) hfit] at hfail ⊢
        refine ⟨rfl, ?_⟩
        cases hs : env.sendAndConfirmTransaction i
            { instructions :=
                [{ fromPubkey := kp.publicKey, toPubkey := env.TARGET_ADDRESS,
                   lamports := jsSub b 5000 }] }
            [kp] confirmOptions with
        | error e => rfl
        | ok sig =>
          rw [hs] at hfail
          simp at hfail
      · obtain ⟨e, he⟩ := collectOne_of_overflow env i kp b hq (by omega) hfit
        rw [he] at hfail
        simp at hfail

theorem checkBalances_of_load (env : Env) (kps : List Keypair)
    (hload : loadKeypairsFromTxt env WALLET_KEYS_FILE = Except.ok kps) :
    checkBalances env =
      { trace :=
          [Event.console LogLine.modeCheck, Event.readFileSync WALLET_KEYS_FILE] ++
          [Event.console (LogLine.walletsFound kps.length),
           Event.console (LogLine.usingRpc env.RPC_URL)] ++
          ((checkSteps env 0 kps).map Prod.fst).flatten ++
          [Event.writeFileSync OUTPUT_JSON_FILE ((checkSteps env 0 kps).map Prod.snd),
           Event.console (LogLine.saved OUTPUT_JSON_FILE)],
        outcome := Except.ok () } := by
  unfold checkBalances
  rw [hload]

theorem queriedAddresses_checkBalances (env : Env) (kps : List Keypair)
    (hload : loadKeypairsFromTxt env WALLET_KEYS_FILE = Except.ok kps) :
    queriedAddresses (checkBalances env).trace =
      queriedAddresses ((checkSteps env 0 kps).map Prod.fst).flatten := by
  rw [checkBalances_of_load env kps hload]
  simp [queriedAddresses_append, queriedAddresses]

theorem queriedAddresses_checkOne (env : Env) (i : Nat) (kp : Keypair) :
    queriedAddresses (checkOne env i kp).1 = [kp.publicKey] := by
  unfold checkOne
  dsimp only
  cases env.getBalance i kp.publicKey <;> rfl

theorem queriedAddresses_checkSteps (env : Env) (i : Nat) (kps : List Keypair) :
    queriedAddresses ((checkSteps env i kps).map Prod.fst).flatten =
      kps.map Keypair.publicKey := by
  induction kps generalizing i with
  | nil => rfl
  | cons kp rest ih =>
    simp [checkSteps, queriedAddresses_append, queriedAddresses_checkOne, ih]

theorem keyLines_eq_filter (content : String) :
    keyLines content =
      ((jsSplit content (Char.ofNat 10)).map jsTrim).filter (fun line => decide (line ≠ "")) := by
  unfold keyLines
  apply List.filter_congr
  intro line _
  by_cases h : line = "" <;> simp [jsBoolean, h]

theorem transfersBuilt_checkSteps (env : Env) (i : Nat) (kps : List Keypair) :
    transfersBuilt ((checkSteps env i kps).map Prod.fst).flatten = [] := by
  induction kps generalizing i with
  | nil => rfl
  | cons kp rest ih =>
    have h1 : transfersBuilt (checkOne env i kp).1 = [] := by
      unfold checkOne
      dsimp only
      cases env.getBalance i kp.publicKey <;> rfl
    simp [checkSteps, transfersBuilt_append, h1, ih]

theorem transactionsSubmitted_checkSteps (env : Env) (i : Nat) (kps : List Keypair) :
    transactionsSubmitted ((checkSteps env i kps).map Prod.fst).flatten = [] := by
  induction kps generalizing i with
  | nil => rfl
  | cons kp rest ih =>
    have h1 : transactionsSubmitted (checkOne env i kp).1 = [] := by
      unfold checkOne
      dsimp only
      cases env.getBalance i kp.publicKey <;> rfl
    simp [checkSteps, transactionsSubmitted_append, h1, ih]

theorem filesWritten_checkSteps (env : Env) (i : Nat) (kps : List Keypair) :
    filesWritten ((checkSteps env i kps).map Prod.fst).flatten = [] := by
  induction kps generalizing i with
  | nil => rfl
  | cons kp rest ih =>
    have h1 : filesWritten (checkOne env i kp).1 = [] := by
      unfold checkOne
      dsimp only
      cases env.getBalance i kp.publicKey <;> rfl
    simp [checkSteps, filesWritten_append, h1, ih]

theorem checkBalances_of_load_error (env : Env) (e : String)
    (hload : loadKeypairsFromTxt env WALLET_KEYS_FILE = Except.error e) :
    checkBalances env =
      { trace := [Event.console LogLine.modeCheck, Event.readFileSync WALLET_KEYS_FILE],
        outcome := Except.error e } := by
  unfold checkBalances
  rw [hload]

theorem collectAll_of_load_error (env : Env) (e : String)
    (hload : loadKeypairsFromTxt env WALLET_KEYS_FILE = Except.error e) :
    collectAll env =
      { trace := [Event.console LogLine.modeCollect, Event.readFileSync WALLET_KEYS_FILE],
        outcome := Except.error e } := by
  unfold collectAll
  rw [hload]

theorem filesWritten_checkBalances (env : Env) (kps : List Keypair)
    (hload : loadKeypairsFromTxt env WALLET_KEYS_FILE = Except.ok kps) :
    filesWritten (checkBalances env).trace =
      [(OUTPUT_JSON_FILE, (checkSteps env 0 kps).map Prod.snd)] := by
  rw [checkBalances_of_load env kps hload]
  simp [filesWritten_append, filesWritten_checkSteps, filesWritten]

theorem loadKeypairsFromTxt_ok_iff (env : Env) (path : String) (kps : List Keypair) :
    loadKeypairsFromTxt env path = Except.ok kps ↔
      ∃ content, env.readFileSync path = Except.ok content ∧
        List.Forall₂ (fun line kp => decodeKey env line = Except.ok kp)
          (keyLines content) kps := by
  unfold loadKeypairsFromTxt
  cases hread : env.readFileSync path with
  | error e => simp
  | ok content => simp [mapThrowing_ok_iff]

theorem thenClose_trace (r : Run) :
    (thenClose r).trace = r.trace ∨ (thenClose r).trace = r.trace ++ [Event.close] := by
  unfold thenClose
  cases r.outcome with
  | error e => exact Or.inl rfl
  | ok u => exact Or.inr rfl

theorem transfersBuilt_thenClose (r : Run) :
    transfersBuilt (thenClose r).trace = transfersBuilt r.trace := by
  rcases thenClose_trace r with h | h <;> rw [h]
  rw [transfersBuilt_append]
  simp [transfersBuilt]

theorem transactionsSubmitted_thenClose (r : Run) :
    transactionsSubmitted (thenClose r).trace = transactionsSubmitted r.trace := by
  rcases thenClose_trace r with h | h <;> rw [h]
  rw [transactionsSubmitted_append]
  simp [transactionsSubmitted]

theorem filesWritten_thenClose (r : Run) :
    filesWritten (thenClose r).trace = filesWritten r.trace := by
  rcases thenClose_trace r with h | h <;> rw [h]
  rw [filesWritten_append]
  simp [filesWritten]

theorem transfersBuilt_checkBalances (env : Env) :
    transfersBuilt (checkBalances env).trace = [] := by
  cases hload : loadKeypairsFromTxt env WALLET_KEYS_FILE with
  | error e =>
    rw [checkBalances_of_load_error env e hload]
    rfl
  | ok kps =>
    rw [checkBalances_of_load env kps hload]
    simp [transfersBuilt_append, transfersBuilt_checkSteps, transfersBuilt]

theorem transactionsSubmitted_checkBalances (env : Env) :
    transactionsSubmitted (checkBalances env).trace = [] := by
  cases hload : loadKeypairsFromTxt env WALLET_KEYS_FILE with
  | error e =>
    rw [checkBalances_of_load_error env e hload]
    rfl
  | ok kps =>
    rw [checkBalances_of_load env kps hload]
    simp [transactionsSubmitted_append, transactionsSubmitted_checkSteps, transactionsSubmitted]

theorem jsDiv_one_lamport :
    jsDiv 1 LAMPORTS_PER_SOL = 4835703278458517 / 4835703278458516698824704 := by
  have h : roundQuot 1 LAMPORTS_PER_SOL = (4835703278458517, -82) := by decide
  rw [jsDiv, h]
  norm_num

theorem jsDiv_one_sol : jsDiv 1000000000 LAMPORTS_PER_SOL = 1 := by
  have h := jsDiv_of_multiple 1 LAMPORTS_PER_SOL (by decide) (by decide)
  simpa [LAMPORTS_PER_SOL] using h

theorem checkOne_of_ok (env : Env) (i : Nat) (kp : Keypair) (b : Nat)
    (hq : env.getBalance i kp.publicKey = Except.ok b) :
    (checkOne env i kp).2 =
      { wallet := kp.publicKey.toBase58, balanceLamports := b,
        balanceSol := jsDiv b LAMPORTS_PER_SOL } := by
  unfold checkOne
  dsimp only
  rw [hq]

theorem collectAll_trace_of_load (env : Env) (kps : List Keypair)
    (hload : loadKeypairsFromTxt env WALLET_KEYS_FILE = Except.ok kps) :
    (collectAll env).trace =
        [Event.console LogLine.modeCollect, Event.readFileSync WALLET_KEYS_FILE] ++
        [Event.console (LogLine.walletsFound kps.length),
         Event.console (LogLine.usingRpc env.RPC_URL),
         Event.console (LogLine.targetAddress env.TARGET_ADDRESS.toBase58)] ++
        (collectSteps env 0 kps).flatten ∨
      (collectAll env).trace =
        [Event.console LogLine.modeCollect, Event.readFileSync WALLET_KEYS_FILE] ++
        [Event.console (LogLine.walletsFound kps.length),
         Event.console (LogLine.usingRpc env.RPC_URL),
         Event.console (LogLine.targetAddress env.TARGET_ADDRESS.toBase58)] ++
        (collectSteps env 0 kps).flatten ++
        [Event.console LogLine.collectDone] := by
  unfold collectAll
  rw [hload]
  dsimp only
  cases (collectLoop env 0 kps).2 with
  | error e => exact Or.inl rfl
  | ok u => exact Or.inr rfl

theorem transfersBuilt_collectAll (env : Env) (kps : List Keypair)
    (hload : loadKeypairsFromTxt env WALLET_KEYS_FILE = Except.ok kps) :
    transfersBuilt (collectAll env).trace = transfersBuilt (collectSteps env 0 kps).flatten := by
  rcases collectAll_trace_of_load env kps hload with h | h <;> rw [h] <;>
    simp [transfersBuilt_append, transfersBuilt]

theorem transactionsSubmitted_collectAll (env : Env) (kps : List Keypair)
    (hload : loadKeypairsFromTxt env WALLET_KEYS_FILE = Except.ok kps) :
    transactionsSubmitted (collectAll env).trace =
      transactionsSubmitted (collectSteps env 0 kps).flatten := by
  rcases collectAll_trace_of_load env kps hload with h | h <;> rw [h] <;>
    simp [transactionsSubmitted_append, transactionsSubmitted]

theorem queriedAddresses_collectAll (env : Env) (kps : List Keypair)
    (hload : loadKeypairsFromTxt env WALLET_KEYS_FILE = Except.ok kps) :
    queriedAddresses (collectAll env).trace =
      queriedAddresses (collectSteps env 0 kps).flatten := by
  rcases collectAll_trace_of_load env kps hload with h | h <;> rw [h] <;>
    simp [queriedAddresses_append, queriedAddresses]

theorem filesWritten_collectAll (env : Env) :
    filesWritten (collectAll env).trace = [] := by
  cases hload : loadKeypairsFromTxt env WALLET_KEYS_FILE with
  | error e =>
    rw [collectAll_of_load_error env e hload]
    rfl
  | ok kps =>
    rcases collectAll_trace_of_load env kps hload with h | h <;> rw [h] <;>
      simp [filesWritten_append, filesWritten_collectSteps, filesWritten]

theorem roundNat_le_add (n : Nat) (h53 : 2 ^ 53 ≤ n) (h64 : n < 2 ^ 64) :
    roundNat n ≤ n + 2048 := by
  obtain ⟨hlo, hhi⟩ := bitLength_bounds n (by omega)
  have hbl : bitLength n ≤ 64 := by
    by_contra hc
    have : 2 ^ 65 ≤ 2 ^ bitLength n := Nat.pow_le_pow_right (by norm_num) (by omega)
    omega
  have he : 2 ^ (bitLength n - 53) ≤ 2 ^ 11 :=
    Nat.pow_le_pow_right (by norm_num) (by omega)
  have hq : n / 2 ^ (bitLength n - 53) * 2 ^ (bitLength n - 53) ≤ n := Nat.div_mul_le_self _ _
  unfold roundNat
  rw [if_neg (by omega)]
  have he2 : 2 ^ (bitLength n - 53) ≤ 2048 := by
    have h11 : (2 : Nat) ^ 11 = 2048 := by norm_num
    omega
  show (if _ then _ else _) ≤ _
  split
  · rw [Nat.add_mul, Nat.one_mul]
    exact Nat.add_le_add hq he2
  · exact Nat.le_trans hq (Nat.le_add_right _ _)

theorem jsSub_fits (b : Nat) (hb : 5000 < b) (h64 : b ≤ 2 ^ 64) :
    jsSub (b : Int) 5000 < 2 ^ 64 := by
  have hnat : ((b : Int) - 5000).toNat = b - 5000 := by omega
  rw [jsSub_eq_roundNat _ _ (by omega), hnat]
  by_cases h53 : b - 5000 < 2 ^ 53
  · rw [roundNat_of_lt _ h53]
    have : b - 5000 < 2 ^ 64 := by omega
    exact_mod_cast this
  · have := roundNat_le_add (b - 5000) (by omega) (by omega)
    have h2 : roundNat (b - 5000) < 2 ^ 64 := by omega
    exact_mod_cast h2

theorem collectAll_stops_when_transfer_throws :
    queriedAddresses
        (collectAll
          (sampleEnv "A\nB"
            (fun i => if i = 0 then Except.ok 18446744073709555712 else Except.ok 7000)
            (fun _ => Except.ok "sig"))).trace = [{ toBase58 := "A" }] ∧
    transfersBuilt
        (collectAll
          (sampleEnv "A\nB"
            (fun i => if i = 0 then Except.ok 18446744073709555712 else Except.ok 7000)
            (fun _ => Except.ok "sig"))).trace = [] ∧
    (collectAll
        (sampleEnv "A\nB"
          (fun i => if i = 0 then Except.ok 18446744073709555712 else Except.ok 7000)
          (fun _ => Except.ok "sig"))).outcome ≠ Except.ok () := by
  decide

theorem collectSteps_reached_of_query (env : Env) (n : Nat) (kps : List Keypair)
    (kp : Keypair) (t : List Event) (hkp : kps[n]? = some kp)
    (ht : (collectSteps env 0 kps)[n]? = some t)
    (hrun : Event.getBalance kp.publicKey ∈ t) :
    t = (collectOne env n kp).trace := by
  have hne : t ≠ [] := by
    intro h
    rw [h] at hrun
    cases hrun
  have := (collectSteps_reached env 0 n kps kp t hkp ht hne).1
  rwa [Nat.zero_add] at this

/-! ## The fund collector -/

/-- Claim C1. In the loop of `collectAll`, whatever the list of key pairs, an
account whose balance query succeeds with a raw balance of at most 5000 lamports
(0 and 5000 included) gets no transfer instruction and no submitted transaction in
its turn of the loop; the turn itself builds and submits nothing and ends
normally. -/
theorem collectAll_skips_balance_within_reserve (env : Env) (kps : List Keypair)
    (n : Nat) (kp : Keypair) (b : Nat) (hkp : kps[n]? = some kp)
    (hq : env.getBalance n kp.publicKey = Except.ok b) (hb : b ≤ 5000) :
    (∃ t, (collectSteps env 0 kps)[n]? = some t ∧
      transfersBuilt t = [] ∧ transactionsSubmitted t = []) ∧
    transfersBuilt (collectOne env n kp).trace = [] ∧
    transactionsSubmitted (collectOne env n kp).trace = [] ∧
    (collectOne env n kp).outcome = Except.ok () := by
  have hone := collectOne_of_small env n kp b hq hb
  have h1 : transfersBuilt (collectOne env n kp).trace = [] := by
    rw [hone]
    rfl
  have h2 : transactionsSubmitted (collectOne env n kp).trace = [] := by
    rw [hone]
    rfl
  refine ⟨?_, h1, h2, by rw [hone]⟩
  rcases collectSteps_getElem?_cases env 0 n kps kp hkp with h | h
  · rw [Nat.zero_add] at h
    exact ⟨_, h, h1, h2⟩
  · exact ⟨[], h, rfl, rfl⟩

theorem collectAll_skips_balance_within_reserve_witness :
    ∃ t, (collectSteps
        (sampleEnv "A\nB" (fun i => if i = 0 then Except.ok 0 else Except.ok 5000)
          (fun _ => Except.ok "sig")) 0 [keyA, keyB])[1]? = some t ∧
      transfersBuilt t = [] ∧ transactionsSubmitted t = [] :=
  (collectAll_skips_balance_within_reserve
    (sampleEnv "A\nB" (fun i => if i = 0 then Except.ok 0 else Except.ok 5000)
      (fun _ => Except.ok "sig"))
    [keyA, keyB] 1 keyB 5000 rfl rfl (by decide)).1

/-- Claim C2, as stated, fails: for a raw balance of 144115188075860896 lamports
(`2 ^ 57 + 5024`, a binary64 value) the transfer built by `collectAll` carries
144115188075855904 lamports, which is not the balance minus 5000. -/
theorem collectAll_amount_not_exact_for_huge_balance :
    transfersBuilt
        (collectAll
          (sampleEnv "A" (fun _ => Except.ok 144115188075860896)
            (fun _ => Except.ok "sig"))).trace =
      [{ fromPubkey := { toBase58 := "A" }, toPubkey := { toBase58 := "Target" },
         lamports := 144115188075855904 }] ∧
    (144115188075855904 : Int) ≠ 144115188075860896 - 5000 := by
  decide

/-- Claim C2, amended. In the loop of `collectAll`, an account whose balance is
queried in the run and whose query succeeds with a raw balance `b` above 5000 and
at most `2 ^ 64` (every unsigned 64-bit balance held in a `Number`) gets exactly
one transfer instruction, from its own address to `TARGET_ADDRESS`, submitted in
one transaction signed by its own key pair only; the amount is `b - 5000` rounded
to binary64, which is exactly `b - 5000` whenever `b - 5000` is below `2 ^ 53`. -/
theorem collectAll_transfers_balance_minus_reserve (env : Env) (kps : List Keypair)
    (n : Nat) (kp : Keypair) (b : Nat) (t : List Event) (hkp : kps[n]? = some kp)
    (ht : (collectSteps env 0 kps)[n]? = some t)
    (hrun : Event.getBalance kp.publicKey ∈ t)
    (hq : env.getBalance n kp.publicKey = Except.ok b) (hb : 5000 < b)
    (h64 : b ≤ 2 ^ 64) :
    transfersBuilt t =
      [{ fromPubkey := kp.publicKey, toPubkey := env.TARGET_ADDRESS,
         lamports := (roundNat (b - 5000) : Int) }] ∧
    transactionsSubmitted t =
      [({ instructions :=
            [{ fromPubkey := kp.publicKey, toPubkey := env.TARGET_ADDRESS,
               lamports := (roundNat (b - 5000) : Int) }] }, [kp])] ∧
    (b - 5000 < 2 ^ 53 → (roundNat (b - 5000) : Int) = (b : Int) - 5000) := by
  have hsub : jsSub (b : Int) 5000 = (roundNat (b - 5000) : Int) := by
    have hnat : ((b : Int) - 5000).toNat = b - 5000 := by omega
    rw [jsSub_eq_roundNat _ _ (by omega), hnat]
  have hone := collectOne_of_large env n kp b hq hb (jsSub_fits b hb h64)
  rw [hsub] at hone
  rw [collectSteps_reached_of_query env n kps kp t hkp ht hrun, hone]
  refine ⟨rfl, rfl, ?_⟩
  intro hlt
  rw [roundNat_of_lt _ hlt]
  omega

theorem collectAll_transfers_balance_minus_reserve_witness :
    transfersBuilt
        (collectOne
          (sampleEnv "A\nB" (fun i => if i = 0 then Except.ok 5001 else Except.ok 0)
            (fun _ => Except.ok "sig")) 0 keyA).trace =
      [{ fromPubkey := keyA.publicKey, toPubkey := { toBase58 := "Target" },
         lamports := (roundNat (5001 - 5000) : Int) }] :=
  (collectAll_transfers_balance_minus_reserve
    (sampleEnv "A\nB" (fun i => if i = 0 then Except.ok 5001 else Except.ok 0)
      (fun _ => Except.ok "sig"))
    [keyA, keyB] 0 keyA 5001
    (collectOne
      (sampleEnv "A\nB" (fun i => if i = 0 then Except.ok 5001 else Except.ok 0)
        (fun _ => Except.ok "sig")) 0 keyA).trace
    rfl rfl (List.mem_cons_self _ _) rfl (by decide) (by decide)).1

/-- Claim C3, as stated, fails: for the key file with the two lines `A` and `B`,
balances 1000000000 and 0, `collectAll` builds one transfer of 999995000 lamports
(1000000000 minus 5000), not of 999999995 lamports. -/
theorem collectAll_example_amount_is_not_999999995 :
    transfersBuilt
        (collectAll
          (sampleEnv "A\nB" (fun i => if i = 0 then Except.ok 1000000000 else Except.ok 0)
            (fun _ => Except.ok "sig"))).trace =
      [{ fromPubkey := { toBase58 := "A" }, toPubkey := { toBase58 := "Target" },
         lamports := 999995000 }] ∧
    transfersBuilt
        (collectAll
          (sampleEnv "A\nB" (fun i => if i = 0 then Except.ok 1000000000 else Except.ok 0)
            (fun _ => Except.ok "sig"))).trace ≠
      [{ fromPubkey := { toBase58 := "A" }, toPubkey := { toBase58 := "Target" },
         lamports := 999999995 }] := by
  decide

/-- Claim C3, amended. When the key file holds the two keys `keyA` and `keyB`, the
balance of `keyA` is 1000000000 and the balance of `keyB` is 0, `collectAll` builds
exactly one transfer, of 999995000 lamports from `keyA` to `TARGET_ADDRESS`,
submits it signed by `keyA`, and in the turn of `keyB` logs the zero balance and
builds and submits nothing. -/
theorem collectAll_example (env : Env) (kA kB : Keypair)
    (hload : loadKeypairsFromTxt env WALLET_KEYS_FILE = Except.ok [kA, kB])
    (hA : env.getBalance 0 kA.publicKey = Except.ok 1000000000)
    (hB : env.getBalance 1 kB.publicKey = Except.ok 0) :
    transfersBuilt (collectAll env).trace =
      [{ fromPubkey := kA.publicKey, toPubkey := env.TARGET_ADDRESS,
         lamports := 999995000 }] ∧
    transactionsSubmitted (collectAll env).trace =
      [({ instructions :=
            [{ fromPubkey := kA.publicKey, toPubkey := env.TARGET_ADDRESS,
               lamports := 999995000 }] }, [kA])] ∧
    ∃ tB, (collectSteps env 0 [kA, kB])[1]? = some tB ∧
      Event.console LogLine.zeroBalance ∈ tB ∧
      transfersBuilt tB = [] ∧ transactionsSubmitted tB = [] := by
  have hsub : jsSub ((1000000000 : Nat) : Int) 5000 = 999995000 := by decide
  have hA1 := collectOne_of_large env 0 kA 1000000000 hA (by decide) (by decide)
  have hB1 := collectOne_of_small env (0 + 1) kB 0 hB (by decide)
  rw [hsub] at hA1
  have hsteps : collectSteps env 0 [kA, kB] =
      [(collectOne env 0 kA).trace, (collectOne env (0 + 1) kB).trace] := by
    rw [collectSteps_cons_ok env 0 kA [kB] (by rw [hA1]),
      collectSteps_cons_ok env (0 + 1) kB [] (by rw [hB1])]
    rfl
  refine ⟨?_, ?_, (collectOne env (0 + 1) kB).trace, ?_, ?_, ?_, ?_⟩
  · rw [transfersBuilt_collectAll env _ hload, hsteps]
    simp only [List.flatten, List.append_nil, transfersBuilt_append]
    rw [hA1, hB1]
    rfl
  · rw [transactionsSubmitted_collectAll env _ hload, hsteps]
    simp only [List.flatten, List.append_nil, transactionsSubmitted_append]
    rw [hA1, hB1]
    rfl
  · rw [hsteps]
    rfl
  · rw [hB1]
    simp
  · rw [hB1]
    rfl
  · rw [hB1]
    rfl

theorem collectAll_example_witness :
    transfersBuilt
        (collectAll
          (sampleEnv "A\nB" (fun i => if i = 0 then Except.ok 1000000000 else Except.ok 0)
            (fun _ => Except.ok "sig"))).trace =
      [{ fromPubkey := keyA.publicKey, toPubkey := { toBase58 := "Target" },
         lamports := 999995000 }] :=
  (collectAll_example
    (sampleEnv "A\nB" (fun i => if i = 0 then Except.ok 1000000000 else Except.ok 0)
      (fun _ => Except.ok "sig"))
    keyA keyB rfl rfl rfl).1

/-- Claim C6. In the loop of `collectAll`, when the turn of the account at
position `n` logs a failed balance query or a failed submission of its
transaction, no transfer is logged as sent in that turn; the turns of all other
accounts, hence the transfers built in them, and the outcome of the loop are those
of the run on the key list without that account (the node giving the other accounts
the same answers); the transfers logged as sent in the whole run are those of that
run; and the account at position `n + 1` still has its turn, in which its balance is
queried. -/
theorem collectAll_failure_is_isolated (env : Env) (kps : List Keypair) (n : Nat)
    (kp : Keypair) (t : List Event) (hkp : kps[n]? = some kp)
    (ht : (collectSteps env 0 kps)[n]? = some t)
    (hfail :
      (∃ e, Event.console (LogLine.balanceError kp.publicKey.toBase58 e) ∈ t) ∨
      (∃ e, Event.console (LogLine.txError e) ∈ t)) :
    transfersSent t = [] ∧
    (collectSteps env 0 kps).eraseIdx n =
      collectSteps (env.withoutAccount n) 0 (kps.eraseIdx n) ∧
    transfersBuilt ((collectSteps env 0 kps).eraseIdx n).flatten =
      transfersBuilt (collectSteps (env.withoutAccount n) 0 (kps.eraseIdx n)).flatten ∧
    transfersSent (collectSteps env 0 kps).flatten =
      transfersSent (collectSteps (env.withoutAccount n) 0 (kps.eraseIdx n)).flatten ∧
    (collectLoop env 0 kps).2 = (collectLoop (env.withoutAccount n) 0 (kps.eraseIdx n)).2 ∧
    (∀ next, kps[n + 1]? = some next →
      (collectSteps env 0 kps)[n + 1]? = some (collectOne env (n + 1) next).trace ∧
      queriedAddresses (collectOne env (n + 1) next).trace = [next.publicKey]) := by
  have hne : t ≠ [] := by
    intro h
    rw [h] at hfail
    rcases hfail with ⟨e, he⟩ | ⟨e, he⟩ <;> cases he
  obtain ⟨htrace, hbefore⟩ := collectSteps_reached env 0 n kps kp t hkp ht hne
  rw [Nat.zero_add] at htrace
  rw [htrace] at hfail
  obtain ⟨hok, hsent⟩ := collectOne_of_failure env n kp hfail
  have hupto : ∀ j kpj, j ≤ n → kps[j]? = some kpj →
      (collectOne env (0 + j) kpj).outcome = Except.ok () := by
    intro j kpj hj hkpj
    rcases Nat.lt_or_eq_of_le hj with hlt | heq
    · exact hbefore j kpj hlt hkpj
    · subst heq
      rw [hkp] at hkpj
      cases hkpj
      rw [Nat.zero_add]
      exact hok
  obtain ⟨herase, hout⟩ := collectLoop_eraseIdx env 0 n kps hupto
  rw [Nat.zero_add] at herase hout
  have herase2 : (collectSteps env 0 kps).eraseIdx n =
      collectSteps (env.withoutAccount n) 0 (kps.eraseIdx n) := herase
  refine ⟨by rw [htrace]; exact hsent, herase2, by rw [herase2], ?_, hout, ?_⟩
  · rw [transfersSent_flatten_eraseIdx _ n t ht (by rw [htrace]; exact hsent), herase2]
  · intro next hnext
    refine ⟨?_, queriedAddresses_collectOne env (n + 1) next⟩
    have := collectSteps_getElem?_of_ok env 0 (n + 1) kps next hnext
      (fun j kpj hj hkpj => hupto j kpj (by omega) hkpj)
    rwa [Nat.zero_add] at this

theorem collectAll_failure_is_isolated_witness :
    transfersSent
        [Event.getBalance { toBase58 := "A" },
         Event.console (LogLine.balanceError "A" "503")] = [] ∧
    transfersSent
        (collectSteps
          (sampleEnv "A\nB" (fun i => if i = 0 then Except.error "503" else Except.ok 7000)
            (fun _ => Except.ok "sig")) 0 [keyA, keyB]).flatten = ["sig"] :=
  ⟨(collectAll_failure_is_isolated
      (sampleEnv "A\nB" (fun i => if i = 0 then Except.error "503" else Except.ok 7000)
        (fun _ => Except.ok "sig"))
      [keyA, keyB] 0 keyA
      [Event.getBalance { toBase58 := "A" },
       Event.console (LogLine.balanceError "A" "503")]
      rfl rfl (Or.inl ⟨"503", List.mem_cons_of_mem _ (List.mem_cons_self _ _)⟩)).1,
    by decide⟩

/-! ## The key loader -/

/-- Claim C4. When every line of the key file that is not empty after trimming
decodes to a key pair, `loadKeypairsFromTxt` returns a list with as many key pairs
as the file has such lines (the content being split at line feeds), and the key
pairs are, in file order, the ones decoded from the trimmed lines. -/
theorem loadKeypairsFromTxt_keeps_lines_in_order (env : Env) (path content : String)
    (hread : env.readFileSync path = Except.ok content)
    (hvalid : ∀ raw ∈ jsSplit content (Char.ofNat 10), jsTrim raw ≠ "" →
      ∃ kp, decodeKey env (jsTrim raw) = Except.ok kp) :
    ∃ kps, loadKeypairsFromTxt env path = Except.ok kps ∧
      kps.length =
        (jsSplit content (Char.ofNat 10)).countP (fun raw => decide (jsTrim raw ≠ "")) ∧
      List.Forall₂ (fun line kp => decodeKey env line = Except.ok kp)
        (((jsSplit content (Char.ofNat 10)).map jsTrim).filter
          (fun line => decide (line ≠ "")))
        kps := by
  have hall : ∀ line ∈ keyLines content, ∃ kp, decodeKey env line = Except.ok kp := by
    intro line hline
    obtain ⟨raw, hraw, hrl, hne⟩ := (mem_keyLines content line).mp hline
    subst hrl
    exact hvalid raw hraw hne
  obtain ⟨kps, hkps⟩ := mapThrowing_ok_of_forall (decodeKey env) (keyLines content) hall
  have hforall := (mapThrowing_ok_iff (decodeKey env) (keyLines content) kps).mp hkps
  refine ⟨kps, ?_, ?_, ?_⟩
  · unfold loadKeypairsFromTxt
    rw [hread]
    exact hkps
  · rw [← hforall.length_eq, keyLines_length]
  · rw [← keyLines_eq_filter]
    exact hforall

theorem loadKeypairsFromTxt_keeps_lines_in_order_witness :
    ∃ kps,
      loadKeypairsFromTxt
          (sampleEnv " A \n\n\tB\x0d\n  \n" (fun _ => Except.ok 0) (fun _ => Except.ok "sig"))
          WALLET_KEYS_FILE = Except.ok kps ∧
      kps.length =
        (jsSplit " A \n\n\tB\x0d\n  \n" (Char.ofNat 10)).countP
          (fun raw => decide (jsTrim raw ≠ "")) ∧
      List.Forall₂
        (fun line kp =>
          decodeKey
            (sampleEnv " A \n\n\tB\x0d\n  \n" (fun _ => Except.ok 0) (fun _ => Except.ok "sig"))
            line = Except.ok kp)
        (((jsSplit " A \n\n\tB\x0d\n  \n" (Char.ofNat 10)).map jsTrim).filter
          (fun line => decide (line ≠ "")))
        kps :=
  loadKeypairsFromTxt_keeps_lines_in_order
    (sampleEnv " A \n\n\tB\x0d\n  \n" (fun _ => Except.ok 0) (fun _ => Except.ok "sig"))
    WALLET_KEYS_FILE " A \n\n\tB\x0d\n  \n" rfl
    (by
      intro raw hraw hne
      have hs : jsSplit " A \n\n\tB\x0d\n  \n" (Char.ofNat 10) =
          [" A ", "", "\tB\x0d", "  ", ""] := by decide
      rw [hs] at hraw
      simp only [List.mem_cons, List.mem_singleton, List.not_mem_nil, or_false] at hraw
      rcases hraw with h | h | h | h | h <;> subst h
      · exact ⟨keyA, rfl⟩
      · exact absurd rfl hne
      · exact ⟨keyB, rfl⟩
      · exact absurd rfl hne
      · exact absurd rfl hne)

/-- Claim C9. When some line of the key file that is not empty after trimming
fails to decode, `loadKeypairsFromTxt` throws and returns no key pair, and both
`checkBalances` and `collectAll` are rejected after the opening log line and the
read of the key file: no balance is queried, no transfer is built, no transaction
is submitted and no file is written. -/
theorem malformed_key_file_aborts (env : Env) (content raw e : String)
    (hread : env.readFileSync WALLET_KEYS_FILE = Except.ok content)
    (hraw : raw ∈ jsSplit content (Char.ofNat 10)) (hne : jsTrim raw ≠ "")
    (hbad : decodeKey env (jsTrim raw) = Except.error e) :
    (∃ e1, loadKeypairsFromTxt env WALLET_KEYS_FILE = Except.error e1) ∧
    (∃ e1, (checkBalances env).outcome = Except.error e1) ∧
    (checkBalances env).trace =
      [Event.console LogLine.modeCheck, Event.readFileSync WALLET_KEYS_FILE] ∧
    queriedAddresses (checkBalances env).trace = [] ∧
    filesWritten (checkBalances env).trace = [] ∧
    (∃ e1, (collectAll env).outcome = Except.error e1) ∧
    (collectAll env).trace =
      [Event.console LogLine.modeCollect, Event.readFileSync WALLET_KEYS_FILE] ∧
    queriedAddresses (collectAll env).trace = [] ∧
    transfersBuilt (collectAll env).trace = [] ∧
    transactionsSubmitted (collectAll env).trace = [] := by
  have hmem : jsTrim raw ∈ keyLines content :=
    (mem_keyLines content (jsTrim raw)).mpr ⟨raw, hraw, rfl, hne⟩
  obtain ⟨e1, he1⟩ :=
    mapThrowing_error_of_mem (decodeKey env) (keyLines content) (jsTrim raw) hmem e hbad
  have hload : loadKeypairsFromTxt env WALLET_KEYS_FILE = Except.error e1 := by
    unfold loadKeypairsFromTxt
    rw [hread]
    exact he1
  rw [checkBalances_of_load_error env e1 hload, collectAll_of_load_error env e1 hload]
  exact ⟨⟨e1, hload⟩, ⟨e1, rfl⟩, rfl, rfl, rfl, ⟨e1, rfl⟩, rfl, rfl, rfl, rfl⟩

theorem malformed_key_file_aborts_witness :
    (∃ e1,
      loadKeypairsFromTxt
          (sampleEnv "A\nnot a key\nB" (fun _ => Except.ok 7000) (fun _ => Except.ok "sig"))
          WALLET_KEYS_FILE = Except.error e1) ∧
    (checkBalances
        (sampleEnv "A\nnot a key\nB" (fun _ => Except.ok 7000)
          (fun _ => Except.ok "sig"))).trace =
      [Event.console LogLine.modeCheck, Event.readFileSync WALLET_KEYS_FILE] :=
  have h := malformed_key_file_aborts
    (sampleEnv "A\nnot a key\nB" (fun _ => Except.ok 7000) (fun _ => Except.ok "sig"))
    "A\nnot a key\nB" "not a key" "Non-base58 character" rfl (by decide) (by decide) rfl
  ⟨h.1, h.2.2.1⟩

/-- Claim C7, as stated, fails: a key file with the same key on two lines makes
`loadKeypairsFromTxt` return that key pair twice, and both `checkBalances` and
`collectAll` query its address twice; `collectAll` builds two transfers from it. -/
theorem duplicate_key_line_is_processed_twice :
    loadKeypairsFromTxt
        (sampleEnv "A\nA" (fun _ => Except.ok 7000) (fun _ => Except.ok "sig"))
        WALLET_KEYS_FILE = Except.ok [keyA, keyA] ∧
    queriedAddresses
        (checkBalances
          (sampleEnv "A\nA" (fun _ => Except.ok 7000) (fun _ => Except.ok "sig"))).trace =
      [{ toBase58 := "A" }, { toBase58 := "A" }] ∧
    queriedAddresses
        (collectAll
          (sampleEnv "A\nA" (fun _ => Except.ok 7000) (fun _ => Except.ok "sig"))).trace =
      [{ toBase58 := "A" }, { toBase58 := "A" }] ∧
    transfersBuilt
        (collectAll
          (sampleEnv "A\nA" (fun _ => Except.ok 7000) (fun _ => Except.ok "sig"))).trace =
      [{ fromPubkey := { toBase58 := "A" }, toPubkey := { toBase58 := "Target" },
         lamports := 2000 },
       { fromPubkey := { toBase58 := "A" }, toPubkey := { toBase58 := "Target" },
         lamports := 2000 }] := by
  decide

theorem forall₂_pairwise_addresses (env : Env) (lines : List String) (kps : List Keypair)
    (hdec : List.Forall₂ (fun line kp => decodeKey env line = Except.ok kp) lines kps)
    (hdistinct : lines.Pairwise (fun l1 l2 => ∀ k1 k2,
      decodeKey env l1 = Except.ok k1 → decodeKey env l2 = Except.ok k2 →
      k1.publicKey ≠ k2.publicKey)) :
    (kps.map Keypair.publicKey).Nodup := by
  induction hdec with
  | nil => exact List.nodup_nil
  | @cons l k ls ks hlk hrest ih =>
    rw [List.pairwise_cons] at hdistinct
    rw [List.map_cons, List.nodup_cons]
    refine ⟨?_, ih hdistinct.2⟩
    intro hmem
    obtain ⟨k2, hk2, hpk⟩ := List.mem_map.mp hmem
    have hex : ∃ l2, l2 ∈ ls ∧ decodeKey env l2 = Except.ok k2 := by
      clear ih hdistinct hmem hpk
      induction hrest with
      | nil => cases hk2
      | @cons l3 k3 ls3 ks3 h3 _ ih3 =>
        rcases List.mem_cons.mp hk2 with h | h
        · subst h
          exact ⟨l3, List.mem_cons_self _ _, h3⟩
        · obtain ⟨l2, hl2, hd2⟩ := ih3 h
          exact ⟨l2, List.mem_cons_of_mem _ hl2, hd2⟩
    obtain ⟨l2, hl2, hd2⟩ := hex
    exact hdistinct.1 l2 hl2 k k2 hlk hd2 hpk.symm

/-- Claim C7, amended. For every key file whose lines that are not empty after
trimming decode to key pairs with pairwise distinct addresses, each source account
is processed at most once per run: in the sequence of key pairs that
`checkBalances` and `collectAll` iterate over (the result of `loadKeypairsFromTxt`)
no address occurs more than once, so no address is queried twice by either mode,
and `collectAll` builds no two transfers from the same address and submits no two
transactions signed by the same key pair. -/
theorem distinct_keys_are_processed_at_most_once (env : Env) (content : String)
    (kps : List Keypair)
    (hread : env.readFileSync WALLET_KEYS_FILE = Except.ok content)
    (hload : loadKeypairsFromTxt env WALLET_KEYS_FILE = Except.ok kps)
    (hdistinct : (keyLines content).Pairwise (fun l1 l2 => ∀ k1 k2,
      decodeKey env l1 = Except.ok k1 → decodeKey env l2 = Except.ok k2 →
      k1.publicKey ≠ k2.publicKey)) :
    (kps.map Keypair.publicKey).Nodup ∧
    (queriedAddresses (checkBalances env).trace).Nodup ∧
    (queriedAddresses (collectAll env).trace).Nodup ∧
    ((transfersBuilt (collectAll env).trace).map TransferInstruction.fromPubkey).Nodup ∧
    ((transactionsSubmitted (collectAll env).trace).map Prod.snd).Nodup := by
  obtain ⟨content2, hread2, hdec⟩ := (loadKeypairsFromTxt_ok_iff env _ kps).mp hload
  rw [hread] at hread2
  cases hread2
  have hnodup := forall₂_pairwise_addresses env (keyLines content) kps hdec hdistinct
  have hsigners : (kps.map (fun kp => [kp])).Nodup := by
    have hk : kps.Nodup := List.Nodup.of_map _ hnodup
    exact hk.map (fun a b h => by simpa using h)
  refine ⟨hnodup, ?_, ?_, ?_, ?_⟩
  · rw [queriedAddresses_checkBalances env kps hload, queriedAddresses_checkSteps]
    exact hnodup
  · rw [queriedAddresses_collectAll env kps hload]
    exact (queriedAddresses_collectSteps_sublist env 0 kps).nodup hnodup
  · rw [transfersBuilt_collectAll env kps hload]
    exact (transfersBuilt_collectSteps_sources env 0 kps).nodup hnodup
  · rw [transactionsSubmitted_collectAll env kps hload]
    exact (transactionsSubmitted_collectSteps_signers env 0 kps).nodup hsigners

theorem distinct_keys_are_processed_at_most_once_witness :
    (queriedAddresses
        (collectAll
          (sampleEnv "A\n\nB\n" (fun _ => Except.ok 7000) (fun _ => Except.ok "sig"))).trace).Nodup :=
  (distinct_keys_are_processed_at_most_once
    (sampleEnv "A\n\nB\n" (fun _ => Except.ok 7000) (fun _ => Except.ok "sig"))
    "A\n\nB\n" [keyA, keyB] rfl rfl
    (by
      have hs : keyLines "A\n\nB\n" = ["A", "B"] := by decide
      rw [hs]
      refine List.Pairwise.cons ?_ (List.Pairwise.cons ?_ List.Pairwise.nil)
      · intro l2 hl2 k1 k2 h1 h2
        simp only [List.mem_singleton] at hl2
        subst hl2
        cases h1
        cases h2
        decide
      · intro l2 hl2
        cases hl2)).2.2.1

/-! ## The balance reporter -/

/-- Claim C5. Whatever key pairs are loaded and whatever the outcome of each
balance query, `checkBalances` writes one file, `OUTPUT_JSON_FILE`, holding one
record per key pair in the order of the key pairs; the record at position `i` has
the address of the key pair at position `i` as its wallet and, as its
`balanceLamports`, the queried balance when the query succeeded and 0 when it
failed. -/
theorem checkBalances_writes_one_record_per_key (env : Env) (kps : List Keypair)
    (hload : loadKeypairsFromTxt env WALLET_KEYS_FILE = Except.ok kps) :
    ∃ records, filesWritten (checkBalances env).trace = [(OUTPUT_JSON_FILE, records)] ∧
      records.length = kps.length ∧
      ∀ i kp, kps[i]? = some kp →
        ∃ r, records[i]? = some r ∧ r.wallet = kp.publicKey.toBase58 ∧
          r.balanceLamports =
            (match env.getBalance i kp.publicKey with
             | Except.ok b => b
             | Except.error _ => 0) := by
  refine ⟨(checkSteps env 0 kps).map Prod.snd, filesWritten_checkBalances env kps hload, ?_, ?_⟩
  · rw [List.length_map, checkSteps_length]
  · intro i kp hkp
    refine ⟨(checkOne env i kp).2, ?_, ?_, ?_⟩
    · rw [List.getElem?_map, checkSteps_getElem?, hkp]
      simp
    · unfold checkOne
      dsimp only
      cases env.getBalance i kp.publicKey <;> rfl
    · unfold checkOne
      dsimp only
      cases env.getBalance i kp.publicKey <;> rfl

theorem checkBalances_writes_one_record_per_key_witness :
    ∃ records,
      filesWritten
          (checkBalances
            (sampleEnv "A\nB" (fun i => if i = 0 then Except.error "503" else Except.ok 7)
              (fun _ => Except.ok "sig"))).trace = [(OUTPUT_JSON_FILE, records)] ∧
      records.length = [keyA, keyB].length ∧
      ∀ i kp, [keyA, keyB][i]? = some kp →
        ∃ r, records[i]? = some r ∧ r.wallet = kp.publicKey.toBase58 ∧
          r.balanceLamports =
            (match
              (sampleEnv "A\nB" (fun i => if i = 0 then Except.error "503" else Except.ok 7)
                (fun _ => Except.ok "sig")).getBalance i kp.publicKey with
             | Except.ok b => b
             | Except.error _ => 0) :=
  checkBalances_writes_one_record_per_key
    (sampleEnv "A\nB" (fun i => if i = 0 then Except.error "503" else Except.ok 7)
      (fun _ => Except.ok "sig"))
    [keyA, keyB] rfl

/-! ## The mode selector -/

/-- Claim C8. The callback of the prompt compares the answer with the two literals:
the answer `1` runs `checkBalances` and then closes the prompt, building and
submitting no transfer; the answer `2` runs `collectAll` and then closes the
prompt, writing no file; every other answer, the empty string and `1` or `2` with
white space around them included, logs the unknown choice and closes the prompt,
reading no file, querying no balance, building and submitting no transfer and
writing no file. -/
theorem onAnswer_dispatches_on_literal (env : Env) (answer : String) :
    (answer = "1" →
      onAnswer env answer = thenClose (checkBalances env) ∧
      transfersBuilt (onAnswer env answer).trace = [] ∧
      transactionsSubmitted (onAnswer env answer).trace = []) ∧
    (answer = "2" →
      onAnswer env answer = thenClose (collectAll env) ∧
      filesWritten (onAnswer env answer).trace = []) ∧
    (answer ≠ "1" → answer ≠ "2" →
      onAnswer env answer =
        { trace := [Event.console LogLine.unknownChoice, Event.close],
          outcome := Except.ok () } ∧
      filesRead (onAnswer env answer).trace = [] ∧
      queriedAddresses (onAnswer env answer).trace = [] ∧
      transfersBuilt (onAnswer env answer).trace = [] ∧
      transactionsSubmitted (onAnswer env answer).trace = [] ∧
      filesWritten (onAnswer env answer).trace = []) := by
  refine ⟨?_, ?_, ?_⟩
  · intro h1
    have hrun : onAnswer env answer = thenClose (checkBalances env) := by
      unfold onAnswer
      rw [if_pos h1]
    rw [hrun, transfersBuilt_thenClose, transactionsSubmitted_thenClose]
    exact ⟨rfl, transfersBuilt_checkBalances env, transactionsSubmitted_checkBalances env⟩
  · intro h2
    have h1 : answer ≠ "1" := by
      rw [h2]
      decide
    have hrun : onAnswer env answer = thenClose (collectAll env) := by
      unfold onAnswer
      rw [if_neg h1, if_pos h2]
    rw [hrun, filesWritten_thenClose]
    exact ⟨rfl, filesWritten_collectAll env⟩
  · intro h1 h2
    have hrun : onAnswer env answer =
        { trace := [Event.console LogLine.unknownChoice, Event.close],
          outcome := Except.ok () } := by
      unfold onAnswer
      rw [if_neg h1, if_neg h2]
    rw [hrun]
    exact ⟨rfl, rfl, rfl, rfl, rfl, rfl⟩

theorem onAnswer_dispatches_on_literal_witness :
    onAnswer (sampleEnv "A\nB" (fun _ => Except.ok 7000) (fun _ => Except.ok "sig")) " 1" =
        { trace := [Event.console LogLine.unknownChoice, Event.close],
          outcome := Except.ok () } ∧
    onAnswer (sampleEnv "A\nB" (fun _ => Except.ok 7000) (fun _ => Except.ok "sig")) "2 " =
        { trace := [Event.console LogLine.unknownChoice, Event.close],
          outcome := Except.ok () } ∧
    onAnswer (sampleEnv "A\nB" (fun _ => Except.ok 7000) (fun _ => Except.ok "sig")) "" =
        { trace := [Event.console LogLine.unknownChoice, Event.close],
          outcome := Except.ok () } :=
  ⟨((onAnswer_dispatches_on_literal
      (sampleEnv "A\nB" (fun _ => Except.ok 7000) (fun _ => Except.ok "sig")) " 1").2.2
      (by decide) (by decide)).1,
   ((onAnswer_dispatches_on_literal
      (sampleEnv "A\nB" (fun _ => Except.ok 7000) (fun _ => Except.ok "sig")) "2 ").2.2
      (by decide) (by decide)).1,
   ((onAnswer_dispatches_on_literal
      (sampleEnv "A\nB" (fun _ => Except.ok 7000) (fun _ => Except.ok "sig")) "").2.2
      (by decide) (by decide)).1⟩

/-! ## The displayed balance -/

/-- Claim C10, as stated, fails: for a key file with the one line `A` and a balance
of 1 lamport, the record written by `checkBalances` has the `balanceSol`
`4835703278458517 / 2 ^ 82`, the binary64 value nearest to `1 / 1000000000`, which
is not the rational number `1 / 1000000000`. -/
theorem balanceSol_of_one_lamport_is_not_exact :
    filesWritten
        (checkBalances
          (sampleEnv "A" (fun _ => Except.ok 1) (fun _ => Except.ok "sig"))).trace =
      [(OUTPUT_JSON_FILE,
        [{ wallet := "A", balanceLamports := 1,
           balanceSol := 4835703278458517 / 4835703278458516698824704 }])] ∧
    (4835703278458517 / 4835703278458516698824704 : Rat) ≠ 1 / 1000000000 := by
  constructor
  · rw [filesWritten_checkBalances
      (sampleEnv "A" (fun _ => Except.ok 1) (fun _ => Except.ok "sig")) [keyA] rfl]
    simp only [checkSteps, List.map]
    rw [checkOne_of_ok
      (sampleEnv "A" (fun _ => Except.ok 1) (fun _ => Except.ok "sig")) 0 keyA 1 rfl,
      jsDiv_one_lamport]
    rfl
  · norm_num

/-- Claim C10, amended. In `checkBalances`, for every account whose query succeeds
with raw balance `b`, the recorded `balanceSol` is `b / 1000000000` as computed in
binary64: it differs from the rational `b / 1000000000` by at most that number
divided by `2 ^ 53`, and it equals it whenever `b` is a whole multiple of
1000000000 with a quotient below `2 ^ 53`.  In particular the key file with the
keys `keyA` and `keyB` and the balances 1000000000 and 0 yields the two records
with balances 1000000000 and 0 and `balanceSol` 1 and 0. -/
theorem checkBalances_balanceSol_is_rounded_quotient (env : Env) :
    (∀ (kps : List Keypair) (i : Nat) (kp : Keypair) (b : Nat),
      kps[i]? = some kp → env.getBalance i kp.publicKey = Except.ok b →
      ∃ r, ((checkSteps env 0 kps).map Prod.snd)[i]? = some r ∧
        r.balanceLamports = b ∧
        |r.balanceSol - (b : Rat) / 1000000000| ≤ (b : Rat) / 1000000000 / 2 ^ 53 ∧
        (∀ k : Nat, k < 2 ^ 53 → b = k * 1000000000 → r.balanceSol = (k : Rat))) ∧
    (∀ kA kB : Keypair,
      loadKeypairsFromTxt env WALLET_KEYS_FILE = Except.ok [kA, kB] →
      env.getBalance 0 kA.publicKey = Except.ok 1000000000 →
      env.getBalance 1 kB.publicKey = Except.ok 0 →
      filesWritten (checkBalances env).trace =
        [(OUTPUT_JSON_FILE,
          [{ wallet := kA.publicKey.toBase58, balanceLamports := 1000000000,
             balanceSol := 1 },
           { wallet := kB.publicKey.toBase58, balanceLamports := 0, balanceSol := 0 }])]) := by
  constructor
  · intro kps i kp b hkp hq
    refine ⟨(checkOne env i kp).2, ?_, ?_, ?_, ?_⟩
    · rw [List.getElem?_map, checkSteps_getElem?, hkp]
      simp
    · rw [checkOne_of_ok env i kp b hq]
    · rw [checkOne_of_ok env i kp b hq]
      have h := jsDiv_error b LAMPORTS_PER_SOL (by decide)
      simpa [LAMPORTS_PER_SOL] using h
    · intro k hk hb
      rw [checkOne_of_ok env i kp b hq, hb]
      exact jsDiv_of_multiple k LAMPORTS_PER_SOL (by decide) hk
  · intro kA kB hload hA hB
    rw [filesWritten_checkBalances env [kA, kB] hload]
    simp only [checkSteps, List.map]
    rw [checkOne_of_ok env 0 kA _ hA, checkOne_of_ok env (0 + 1) kB _ hB, jsDiv_one_sol,
      jsDiv_zero]

theorem checkBalances_balanceSol_is_rounded_quotient_witness :
    filesWritten
        (checkBalances
          (sampleEnv "A\nB" (fun i => if i = 0 then Except.ok 1000000000 else Except.ok 0)
            (fun _ => Except.ok "sig"))).trace =
      [(OUTPUT_JSON_FILE,
        [{ wallet := "A", balanceLamports := 1000000000, balanceSol := 1 },
         { wallet := "B", balanceLamports := 0, balanceSol := 0 }])] :=
  (checkBalances_balanceSol_is_rounded_quotient
    (sampleEnv "A\nB" (fun i => if i = 0 then Except.ok 1000000000 else Except.ok 0)
      (fun _ => Except.ok "sig"))).2 keyA keyB rfl rfl rfl

end CollectSol
